import Mathlib

/-!
Verification of the WebSocket chat relay (`WSServer` in
`src/phase-web-api/src/routes/index.ts`).

JavaScript `Map`s are modelled as insertion-ordered association lists with
`String` keys: `set` replaces a binding in place or appends a new one,
`delete` removes the binding, `size` is the length, and iteration
(`forEach`, `values`) follows the list order.  Sockets are identified by
opaque handles; an environment records each handle's ready state and
whether a low-level `send` on it succeeds.  Every handler is a pure
function from the server state to a new state together with a trace of
delivery events.
-/

namespace Microphone

section JMap

variable {α : Type}

/-- Model of JavaScript `Map.get`: the first binding of the key, if any. -/
def jget : List (String × α) → String → Option α
  | [], _ => none
  | (k, v) :: rest, k2 => if k = k2 then some v else jget rest k2

/-- Model of JavaScript `Map.set`: replace the binding in place, or append. -/
def jset : List (String × α) → String → α → List (String × α)
  | [], k2, v2 => [(k2, v2)]
  | (k, v) :: rest, k2, v2 =>
      if k = k2 then (k2, v2) :: rest else (k, v) :: jset rest k2 v2

/-- Model of JavaScript `Map.delete`: remove the binding of the key. -/
def jerase : List (String × α) → String → List (String × α)
  | [], _ => []
  | (k, v) :: rest, k2 => if k = k2 then rest else (k, v) :: jerase rest k2

/-- The key list of a map, in insertion order. -/
def keys (m : List (String × α)) : List String := m.map Prod.fst

end JMap

/-! Data model, mirroring the interfaces of `routes/index.ts`. -/

/-- The two user roles (`UserRole` in the source). -/
inductive UserRole : Type
  | product_manager
  | developer
deriving DecidableEq

/-- A connected user (`User` in the source).  The live `WebSocket` object is
represented by an opaque socket handle. -/
structure User : Type where
  id : String
  socket : String
  role : UserRole
  name : String
  roomId : String
  joinedAt : Nat
deriving DecidableEq

/-- A chat room (`Room` in the source); `users` is the membership `Map`. -/
structure Room : Type where
  id : String
  name : String
  users : List (String × User)
  createdAt : Nat
deriving DecidableEq

/-- The public shape `{id, name, role}` used in user lists and join/leave
notifications. -/
structure UserInfo : Type where
  id : String
  name : String
  role : UserRole
deriving DecidableEq

/-- Projection of a user to its public shape. -/
def User.toInfo (u : User) : UserInfo :=
  { id := u.id, name := u.name, role := u.role }

/-- Outbound server-to-client messages, tagged as in the wire protocol.
Payload fields that the source copies from a possibly-undefined JavaScript
value are `Option`s. -/
inductive OutMsg : Type
  | connection_established (userId : String)
  | room_joined (roomId : String) (roomName : String) (userCount : Nat)
  | user_joined (user : UserInfo) (users : List UserInfo) (msgId : String)
      (content : String) (timestamp : Nat)
  | user_left (user : UserInfo) (users : List UserInfo) (msgId : String)
      (content : String) (timestamp : Nat)
  | chat_message (id : String) (userId : String) (userName : String)
      (userRole : UserRole) (content : Option String) (timestamp : Nat)
  | user_list (users : List UserInfo)
  | error (e : String)
deriving DecidableEq

/-- One observable delivery event on a socket: either `ws.send` succeeded,
or it threw and the failure was caught and logged (`sendToUser`). -/
inductive Event : Type
  | sent (sock : String) (msg : OutMsg)
  | sendFailed (sock : String)
deriving DecidableEq

/-- Environment describing the transport: whether a socket handle is in the
`OPEN` ready state, and whether a low-level `send` on it succeeds. -/
structure SockEnv : Type where
  readyState : String → Bool
  sendOk : String → Bool

/-- Whole-server state: the `rooms` and `users` maps of `WSServer`. -/
structure WSState : Type where
  rooms : List (String × Room)
  users : List (String × User)
deriving DecidableEq

/-- Payload of a `join_room` frame; each field may be absent. -/
structure JoinPayload : Type where
  roomName : Option String
  userName : Option String
  userRole : Option String
deriving DecidableEq

/-- Payload of a `chat_message` frame; `content` may be absent. -/
structure ChatPayload : Type where
  content : Option String
deriving DecidableEq

/-- JavaScript falsiness of an optional string: `undefined` and the empty
string are falsy (the source guards with `!roomName` etc.). -/
def falsy : Option String → Bool
  | none => true
  | some s => s == ""

/-- The role cast `userRole as UserRole`, applied after the source has
checked the string equals one of the two enumerated values. -/
def toRole (s : String) : UserRole :=
  if s = "product_manager" then UserRole.product_manager
  else UserRole.developer

/-! Operations of `WSServer`, one Lean function per method.  Each returns
the successor state and/or the list of delivery events it produced, in
program order.  Fresh `uuidv4()` results and `Date.now()` readings are
passed in as parameters. -/

/-- Model of `sendToUser`: skip silently unless the socket is `OPEN`; a
`ws.send` failure is caught (logged), producing a `sendFailed` event. -/
def sendToUser (env : SockEnv) (sock : String) (msg : OutMsg) : List Event :=
  if env.readyState sock then
    if env.sendOk sock then [Event.sent sock msg] else [Event.sendFailed sock]
  else []

/-- Model of `sendError`: a private `error` reply. -/
def sendError (env : SockEnv) (sock : String) (e : String) : List Event :=
  sendToUser env sock (OutMsg.error e)

/-- Model of `broadcastToRoom`: iterate over the room's membership map and
send to every member other than the excluded one whose socket is `OPEN`. -/
def broadcastToRoom (env : SockEnv) (st : WSState) (roomId : String)
    (msg : OutMsg) (excludeUserId : Option String) : List Event :=
  match jget st.rooms roomId with
  | none => []
  | some room =>
      room.users.foldl
        (fun acc p =>
          if excludeUserId ≠ some p.1 ∧ env.readyState p.2.socket then
            acc ++ sendToUser env p.2.socket msg
          else acc)
        []

/-- Model of `getRoomUsers`: the public info of all members, in map order. -/
def getRoomUsers (st : WSState) (roomId : String) : List UserInfo :=
  match jget st.rooms roomId with
  | none => []
  | some room => room.users.map (fun p => p.2.toInfo)

/-- Model of `sendUserList`: push the caller's room's member list privately
to the caller. -/
def sendUserList (env : SockEnv) (st : WSState) (userId : String) :
    List Event :=
  match jget st.users userId with
  | none => []
  | some user =>
      match jget st.rooms user.roomId with
      | none => []
      | some room =>
          sendToUser env user.socket (OutMsg.user_list (getRoomUsers st room.id))

/-- Model of `handleLeaveRoom`: no-op when the session has no user record or
its room is gone; otherwise remove the user from the room and the user map,
broadcast `user_left` to the remaining members, and delete the room when it
became empty. -/
def handleLeaveRoom (env : SockEnv) (st : WSState) (userId : String)
    (msgId : String) (now : Nat) : WSState × List Event :=
  match jget st.users userId with
  | none => (st, [])
  | some user =>
      match jget st.rooms user.roomId with
      | none => (st, [])
      | some room =>
          let room1 : Room := { room with users := jerase room.users userId }
          let st1 : WSState :=
            { rooms := jset st.rooms user.roomId room1
              users := jerase st.users userId }
          let evs := broadcastToRoom env st1 room.id
            (OutMsg.user_left user.toInfo (getRoomUsers st1 room.id) msgId
              (user.name ++ " 离开了房间") now) none
          let st2 : WSState :=
            if room1.users.length = 0 then
              { st1 with rooms := jerase st1.rooms room.id }
            else st1
          (st2, evs)

/-- Fresh identifiers consumed by a `join_room` command: the id of a newly
created room, and the `uuidv4()` message ids of the `user_left` and
`user_joined` system messages. -/
structure JoinIds : Type where
  newRoomId : String
  leaveMsgId : String
  joinMsgId : String
deriving DecidableEq

/-- Model of `handleJoinRoom`: validate the payload, leave the previous room,
find the room by name or create it, insert the user, then reply
`room_joined`, broadcast `user_joined` excluding the joiner, and push the
member list to the joiner. -/
def handleJoinRoom (env : SockEnv) (st : WSState) (userId : String)
    (sock : String) (payload : JoinPayload) (ids : JoinIds) (now : Nat) :
    WSState × List Event :=
  if falsy payload.roomName ∨ falsy payload.userName ∨ falsy payload.userRole
  then
    (st, sendError env sock "缺少必要参数: roomName, userName, userRole")
  else
    let roleStr := payload.userRole.getD ""
    if roleStr ≠ "product_manager" ∧ roleStr ≠ "developer" then
      (st, sendError env sock "无效的用户角色")
    else
      let roomName := payload.roomName.getD ""
      let userName := payload.userName.getD ""
      let leave := handleLeaveRoom env st userId ids.leaveMsgId now
      let st1 := leave.1
      let fr : String × Room × List (String × Room) :=
        match st1.rooms.find? (fun p => p.2.name == roomName) with
        | some p => (p.1, p.2, st1.rooms)
        | none =>
            (ids.newRoomId,
             { id := ids.newRoomId, name := roomName, users := []
               createdAt := now },
             jset st1.rooms ids.newRoomId
               { id := ids.newRoomId, name := roomName, users := []
                 createdAt := now })
      let rid := fr.1
      let room0 : Room := fr.2.1
      let rooms0 := fr.2.2
      let user : User :=
        { id := userId, socket := sock, role := toRole roleStr
          name := userName, roomId := room0.id, joinedAt := now }
      let room1 : Room := { room0 with users := jset room0.users userId user }
      let st2 : WSState :=
        { rooms := jset rooms0 rid room1, users := jset st1.users userId user }
      let evs2 := sendToUser env sock
        (OutMsg.room_joined room1.id room1.name room1.users.length)
      let evs3 := broadcastToRoom env st2 room1.id
        (OutMsg.user_joined user.toInfo (getRoomUsers st2 room1.id)
          ids.joinMsgId (userName ++ " 加入了房间") now)
        (some userId)
      let evs4 := sendUserList env st2 userId
      (st2, leave.2 ++ evs2 ++ evs3 ++ evs4)

/-- Model of `handleChatMessage`: throws when the sender has no user record
or its room is missing; otherwise broadcasts the chat message to the room,
excluding the sender. -/
def handleChatMessage (env : SockEnv) (st : WSState) (userId : String)
    (payload : ChatPayload) (msgId : String) (now : Nat) :
    Except String (WSState × List Event) :=
  match jget st.users userId with
  | none => Except.error "用户未加入任何房间"
  | some user =>
      match jget st.rooms user.roomId with
      | none => Except.error "房间不存在"
      | some room =>
          Except.ok (st, broadcastToRoom env st room.id
            (OutMsg.chat_message msgId user.id user.name user.role
              payload.content now)
            (some userId))

/-- Model of `handleListUsers`: ignored unless the caller has a user record,
then a private member-list push. -/
def handleListUsers (env : SockEnv) (st : WSState) (userId : String) :
    List Event :=
  match jget st.users userId with
  | none => []
  | some _ => sendUserList env st userId

/-- Inbound frames after `JSON.parse`, as dispatched on `message.type`;
`unknown` is any unrecognized type tag. -/
inductive Frame : Type
  | join_room (payload : JoinPayload)
  | chat_message (payload : ChatPayload)
  | leave_room
  | list_users
  | unknown
deriving DecidableEq

/-- A raw inbound frame: either it fails `JSON.parse`, or it parses to a
typed frame. -/
inductive Inbound : Type
  | malformed
  | parsed (f : Frame)
deriving DecidableEq

/-- Model of `handleMessage`: dispatch on the frame type; an error thrown by
a downstream handler is caught and turned into a private `error` reply. -/
def handleMessage (env : SockEnv) (st : WSState) (userId : String)
    (sock : String) (f : Frame) (ids : JoinIds) (chatMsgId : String)
    (now : Nat) : WSState × List Event :=
  match f with
  | Frame.join_room p => handleJoinRoom env st userId sock p ids now
  | Frame.chat_message p =>
      match handleChatMessage env st userId p chatMsgId now with
      | Except.ok r => r
      | Except.error e => (st, sendError env sock e)
  | Frame.leave_room => handleLeaveRoom env st userId ids.leaveMsgId now
  | Frame.list_users => (st, handleListUsers env st userId)
  | Frame.unknown => (st, sendError env sock "未知的消息类型")

/-- Model of the `ws.on('message')` callback: a frame that fails to parse
yields a private error reply; otherwise dispatch. -/
def onRawMessage (env : SockEnv) (st : WSState) (userId : String)
    (sock : String) (inbound : Inbound) (ids : JoinIds) (chatMsgId : String)
    (now : Nat) : WSState × List Event :=
  match inbound with
  | Inbound.malformed => (st, sendError env sock "消息格式错误")
  | Inbound.parsed f => handleMessage env st userId sock f ids chatMsgId now

/-- Model of the `wss.on('connection')` callback's observable effect: a
fresh session id is generated and `connection_established` is sent; no
entry is added to any map. -/
def handleConnect (env : SockEnv) (st : WSState) (userId : String)
    (sock : String) : WSState × List Event :=
  (st, sendToUser env sock (OutMsg.connection_established userId))

/-- Model of `handleDisconnect`: trigger the leave-room cleanup. -/
def handleDisconnect (env : SockEnv) (st : WSState) (userId : String)
    (msgId : String) (now : Nat) : WSState × List Event :=
  handleLeaveRoom env st userId msgId now

/-- Per-room entry of the stats report. -/
structure RoomInfo : Type where
  id : String
  name : String
  userCount : Nat
  createdAt : Nat
deriving DecidableEq

/-- The stats report of `getStats`. -/
structure Stats : Type where
  totalRooms : Nat
  totalUsers : Nat
  rooms : List RoomInfo
deriving DecidableEq

/-- Model of `getStats`. -/
def getStats (st : WSState) : Stats :=
  { totalRooms := st.rooms.length
    totalUsers := st.users.length
    rooms := st.rooms.map (fun p =>
      { id := p.2.id, name := p.2.name, userCount := p.2.users.length
        createdAt := p.2.createdAt }) }

/-! Reachability: the states a `WSServer` can be in between callbacks,
starting from the empty maps, under any sequence of connection, message and
disconnection callbacks.  Fresh-`uuidv4` room ids are required not to
collide with a live room id. -/

/-- One externally triggered callback, with its environment and the fresh
identifiers and timestamp it consumes. -/
inductive Op : Type
  | connect (userId : String) (sock : String) (env : SockEnv)
  | message (userId : String) (sock : String) (env : SockEnv)
      (inbound : Inbound) (ids : JoinIds) (chatMsgId : String) (now : Nat)
  | disconnect (userId : String) (env : SockEnv) (msgId : String) (now : Nat)

/-- Run one callback. -/
def runOp (st : WSState) : Op → WSState × List Event
  | Op.connect u s env => handleConnect env st u s
  | Op.message u s env ib ids cm now => onRawMessage env st u s ib ids cm now
  | Op.disconnect u env m now => handleDisconnect env st u m now

/-- Freshness of the `uuidv4()` room id an operation may consume. -/
def freshOk (st : WSState) : Op → Prop
  | Op.message _ _ _ _ ids _ _ => jget st.rooms ids.newRoomId = none
  | _ => True

/-- The empty initial state of a freshly constructed `WSServer`. -/
def initState : WSState := { rooms := [], users := [] }

/-- States reachable from the initial state by callbacks with fresh ids. -/
inductive Reachable : WSState → Prop
  | init : Reachable initState
  | step {st : WSState} (op : Op) : Reachable st → freshOk st op →
      Reachable (runOp st op).1

/-! The server-state invariant maintained by every callback. -/

/-- Consistency of the two maps of `WSServer`: unique keys, keys matching
the stored ids, no empty room, unique room names, and the user map being
exactly the disjoint union of the room memberships. -/
structure Inv (st : WSState) : Prop where
  roomsNodup : (keys st.rooms).Nodup
  usersNodup : (keys st.users).Nodup
  memNodup : ∀ p ∈ st.rooms, (keys p.2.users).Nodup
  roomKey : ∀ p ∈ st.rooms, p.2.id = p.1
  userKey : ∀ p ∈ st.users, p.2.id = p.1
  nonEmpty : ∀ p ∈ st.rooms, p.2.users ≠ []
  namesUniq : ∀ p ∈ st.rooms, ∀ q ∈ st.rooms, p.2.name = q.2.name → p.1 = q.1
  memUser : ∀ p ∈ st.rooms, ∀ q ∈ p.2.users,
      jget st.users q.1 = some q.2 ∧ q.2.roomId = p.1
  userMem : ∀ p ∈ st.users, ∃ r, jget st.rooms p.2.roomId = some r ∧
      jget r.users p.1 = some p.2
  count : (st.rooms.map (fun p => p.2.users.length)).sum = st.users.length

/-! Concrete fixtures: a transport where socket `s4` is closed and the
low-level send on socket `s3` fails, and the two-join scenario of the
specification (Alice then Bob joining room `alpha`). -/

def wEnv : SockEnv :=
  { readyState := fun s => !(s == "s4"), sendOk := fun s => !(s == "s3") }

def wIds : JoinIds := JoinIds.mk "r1" "m1" "m2"

def wIds2 : JoinIds := JoinIds.mk "r2" "m3" "m4"

def wPayA : JoinPayload :=
  JoinPayload.mk (some "alpha") (some "Alice") (some "product_manager")

def wPayB : JoinPayload :=
  JoinPayload.mk (some "alpha") (some "Bob") (some "developer")

def wPayBeta : JoinPayload :=
  JoinPayload.mk (some "beta") (some "Alice") (some "product_manager")

def wJoinOpA : Op :=
  Op.message "u1" "s1" wEnv (Inbound.parsed (Frame.join_room wPayA)) wIds
    "cm" 5

def wSt1 : WSState := (runOp initState wJoinOpA).1

def wJoinOpB : Op :=
  Op.message "u2" "s2" wEnv (Inbound.parsed (Frame.join_room wPayB)) wIds2
    "cm" 7

def wSt2 : WSState := (runOp wSt1 wJoinOpB).1

def wUserA : User := User.mk "u1" "s1" UserRole.product_manager "Alice" "r1" 5

def wUserB : User := User.mk "u2" "s2" UserRole.developer "Bob" "r1" 7

def wRoom1 : Room := Room.mk "r1" "alpha" [("u1", wUserA)] 5

def wRoom2 : Room := Room.mk "r1" "alpha" [("u1", wUserA), ("u2", wUserB)] 5

def wUserC : User := User.mk "u3" "s3" UserRole.developer "Carl" "r9" 0

def wUserD : User := User.mk "u4" "s4" UserRole.developer "Dan" "r9" 0

def wUserE : User := User.mk "u5" "s5" UserRole.developer "Eve" "r9" 0

def wRoom9 : Room :=
  Room.mk "r9" "gamma" [("u5", wUserE), ("u3", wUserC), ("u4", wUserD)] 0

def wSt9 : WSState :=
  WSState.mk [("r9", wRoom9)]
    [("u5", wUserE), ("u3", wUserC), ("u4", wUserD)]

section JMapLemmas

variable {α : Type}

theorem keys_nil : keys ([] : List (String × α)) = [] := rfl

theorem keys_cons (p : String × α) (m : List (String × α)) :
    keys (p :: m) = p.1 :: keys m := rfl

theorem keys_append (m1 m2 : List (String × α)) :
    keys (m1 ++ m2) = keys m1 ++ keys m2 := by
  simp [keys]

theorem mem_keys_iff {m : List (String × α)} {k : String} :
    k ∈ keys m ↔ ∃ v, (k, v) ∈ m := by
  constructor
  · intro h
    obtain ⟨p, hp, he⟩ := List.mem_map.mp h
    exact ⟨p.2, by simpa [← he] using hp⟩
  · rintro ⟨v, hv⟩
    exact List.mem_map.mpr ⟨(k, v), hv, rfl⟩

theorem keys_mem_of_mem {m : List (String × α)} {p : String × α}
    (h : p ∈ m) : p.1 ∈ keys m :=
  mem_keys_iff.mpr ⟨p.2, by simpa using h⟩

theorem jget_eq_none_iff {m : List (String × α)} {k : String} :
    jget m k = none ↔ k ∉ keys m := by
  induction m with
  | nil => simp [jget, keys]
  | cons p rest ih =>
      cases p with
      | mk k1 v1 =>
          by_cases hk : k1 = k
          · subst hk
            simp [jget, keys_cons]
          · simp [jget, hk, keys_cons, ih, Ne.symm hk]

theorem jget_mem {m : List (String × α)} {k : String} {v : α}
    (h : jget m k = some v) : (k, v) ∈ m := by
  induction m with
  | nil => simp [jget] at h
  | cons p rest ih =>
      cases p with
      | mk k1 v1 =>
          by_cases hk : k1 = k
          · subst hk
            simp [jget] at h
            simp [h]
          · simp only [jget, if_neg hk] at h
            exact List.mem_cons_of_mem _ (ih h)

theorem jget_isSome_of_mem {m : List (String × α)} {p : String × α}
    (h : p ∈ m) : jget m p.1 ≠ none := by
  rw [Ne, jget_eq_none_iff, not_not]
  exact keys_mem_of_mem h

theorem jget_of_mem_nodup {m : List (String × α)} {p : String × α}
    (hnd : (keys m).Nodup) (h : p ∈ m) : jget m p.1 = some p.2 := by
  induction m with
  | nil => simp at h
  | cons q rest ih =>
      cases q with
      | mk k1 v1 =>
          rw [keys_cons, List.nodup_cons] at hnd
          rcases List.mem_cons.mp h with rfl | hmem
          · simp [jget]
          · have hne : k1 ≠ p.1 := by
              intro he
              have hp1 : p.1 ∈ keys rest := keys_mem_of_mem hmem
              rw [← he] at hp1
              exact hnd.1 hp1
            simp only [jget, if_neg hne]
            exact ih hnd.2 hmem

theorem jget_decomp {m : List (String × α)} {k : String} {v : α}
    (h : jget m k = some v) :
    ∃ l1 l2, m = l1 ++ (k, v) :: l2 ∧ k ∉ keys l1 := by
  induction m with
  | nil => simp [jget] at h
  | cons p rest ih =>
      cases p with
      | mk k1 v1 =>
          by_cases hk : k1 = k
          · subst hk
            simp [jget] at h
            exact ⟨[], rest, by simp [h], by simp [keys]⟩
          · simp only [jget, if_neg hk] at h
            obtain ⟨l1, l2, heq, hnot⟩ := ih h
            refine ⟨(k1, v1) :: l1, l2, by simp [heq], ?_⟩
            simp [keys_cons, hnot, Ne.symm hk]

theorem jset_of_not_mem {m : List (String × α)} {k : String} (v : α)
    (h : k ∉ keys m) : jset m k v = m ++ [(k, v)] := by
  induction m with
  | nil => simp [jset]
  | cons p rest ih =>
      cases p with
      | mk k1 v1 =>
          rw [keys_cons, List.mem_cons] at h
          push_neg at h
          have h1 : k1 ≠ k := fun he => h.1 he.symm
          simp [jset, h1, ih h.2]

theorem jset_mid (l1 l2 : List (String × α)) (k : String) (w v : α)
    (h : k ∉ keys l1) :
    jset (l1 ++ (k, w) :: l2) k v = l1 ++ (k, v) :: l2 := by
  induction l1 with
  | nil => simp [jset]
  | cons p rest ih =>
      cases p with
      | mk k1 v1 =>
          rw [keys_cons, List.mem_cons] at h
          push_neg at h
          have h1 : k1 ≠ k := fun he => h.1 he.symm
          simp [jset, h1, ih h.2]

theorem jerase_mid (l1 l2 : List (String × α)) (k : String) (w : α)
    (h : k ∉ keys l1) :
    jerase (l1 ++ (k, w) :: l2) k = l1 ++ l2 := by
  induction l1 with
  | nil => simp [jerase]
  | cons p rest ih =>
      cases p with
      | mk k1 v1 =>
          rw [keys_cons, List.mem_cons] at h
          push_neg at h
          have h1 : k1 ≠ k := fun he => h.1 he.symm
          simp [jerase, h1, ih h.2]

theorem jerase_of_not_mem {m : List (String × α)} {k : String}
    (h : k ∉ keys m) : jerase m k = m := by
  induction m with
  | nil => simp [jerase]
  | cons p rest ih =>
      cases p with
      | mk k1 v1 =>
          rw [keys_cons, List.mem_cons] at h
          push_neg at h
          have h1 : k1 ≠ k := fun he => h.1 he.symm
          simp [jerase, h1, ih h.2]

theorem jget_jset_self (m : List (String × α)) (k : String) (v : α) :
    jget (jset m k v) k = some v := by
  induction m with
  | nil => simp [jset, jget]
  | cons p rest ih =>
      cases p with
      | mk k1 v1 =>
          by_cases hk : k1 = k
          · simp [jset, hk, jget]
          · simp [jset, hk, jget, ih]

theorem jget_jset_ne (m : List (String × α)) {k k2 : String} (v : α)
    (h : k ≠ k2) : jget (jset m k v) k2 = jget m k2 := by
  induction m with
  | nil => simp [jset, jget, h]
  | cons p rest ih =>
      cases p with
      | mk k1 v1 =>
          by_cases hk : k1 = k
          · subst hk
            simp [jset, jget, h]
          · simp [jset, hk, jget, ih]

theorem jget_jerase_ne (m : List (String × α)) {k k2 : String}
    (h : k ≠ k2) : jget (jerase m k) k2 = jget m k2 := by
  induction m with
  | nil => simp [jerase, jget]
  | cons p rest ih =>
      cases p with
      | mk k1 v1 =>
          by_cases hk : k1 = k
          · subst hk
            have he : jerase ((k1, v1) :: rest) k1 = rest := by
              simp [jerase]
            rw [he, jget, if_neg h]
          · simp only [jerase, if_neg hk]
            rw [jget, jget]
            by_cases hk2 : k1 = k2
            · simp [hk2]
            · simp [hk2, ih]

theorem keys_jset_of_mem {m : List (String × α)} {k : String} (v : α)
    (h : k ∈ keys m) : keys (jset m k v) = keys m := by
  induction m with
  | nil => simp [keys] at h
  | cons p rest ih =>
      cases p with
      | mk k1 v1 =>
          by_cases hk : k1 = k
          · simp [jset, hk, keys_cons]
          · rw [keys_cons, List.mem_cons] at h
            rcases h with rfl | h
            · exact absurd rfl hk
            · simp [jset, hk, keys_cons, ih h]

theorem keys_jset_of_not_mem {m : List (String × α)} {k : String} (v : α)
    (h : k ∉ keys m) : keys (jset m k v) = keys m ++ [k] := by
  rw [jset_of_not_mem v h, keys_append]
  rfl

theorem sublist_jerase (m : List (String × α)) (k : String) :
    List.Sublist (jerase m k) m := by
  induction m with
  | nil => simp [jerase]
  | cons p rest ih =>
      cases p with
      | mk k1 v1 =>
          by_cases hk : k1 = k
          · simp only [jerase, if_pos hk]
            exact List.sublist_cons_self _ _
          · simp only [jerase, if_neg hk]
            exact List.Sublist.cons₂ _ ih

theorem keys_jerase_sublist (m : List (String × α)) (k : String) :
    List.Sublist (keys (jerase m k)) (keys m) :=
  List.Sublist.map Prod.fst (sublist_jerase m k)

theorem nodup_keys_jerase {m : List (String × α)} (k : String)
    (h : (keys m).Nodup) : (keys (jerase m k)).Nodup :=
  List.Nodup.sublist (keys_jerase_sublist m k) h

theorem nodup_keys_jset {m : List (String × α)} {k : String} (v : α)
    (h : (keys m).Nodup) : (keys (jset m k v)).Nodup := by
  by_cases hk : k ∈ keys m
  · rw [keys_jset_of_mem v hk]
    exact h
  · rw [keys_jset_of_not_mem v hk]
    simp [List.nodup_append, h, hk]

theorem mem_of_mem_jerase {m : List (String × α)} {k : String}
    {p : String × α} (h : p ∈ jerase m k) : p ∈ m :=
  List.Sublist.mem h (sublist_jerase m k)

theorem mem_jerase_of_ne {m : List (String × α)} {k : String}
    {p : String × α} (hmem : p ∈ m) (hne : p.1 ≠ k) : p ∈ jerase m k := by
  induction m with
  | nil => simp at hmem
  | cons q rest ih =>
      cases q with
      | mk k1 v1 =>
          by_cases hk : k1 = k
          · subst hk
            rcases List.mem_cons.mp hmem with rfl | h
            · exact absurd rfl hne
            · simpa [jerase] using h
          · rcases List.mem_cons.mp hmem with rfl | h
            · simp [jerase, hk]
            · simp only [jerase, if_neg hk]
              exact List.mem_cons_of_mem _ (ih h)

theorem jget_jerase_self {m : List (String × α)} {k : String}
    (hnd : (keys m).Nodup) : jget (jerase m k) k = none := by
  induction m with
  | nil => simp [jerase, jget]
  | cons p rest ih =>
      cases p with
      | mk k1 v1 =>
          rw [keys_cons, List.nodup_cons] at hnd
          by_cases hk : k1 = k
          · subst hk
            simp only [jerase, if_pos rfl]
            rw [jget_eq_none_iff]
            exact hnd.1
          · simp only [jerase, if_neg hk]
            rw [jget, if_neg hk]
            exact ih hnd.2

theorem mem_jset {m : List (String × α)} {k : String} {v : α}
    {p : String × α} (h : p ∈ jset m k v) : p = (k, v) ∨ p ∈ m := by
  induction m with
  | nil => simpa [jset] using h
  | cons q rest ih =>
      cases q with
      | mk k1 v1 =>
          by_cases hk : k1 = k
          · subst hk
            simp only [jset, if_pos rfl] at h
            rcases List.mem_cons.mp h with rfl | hm
            · exact Or.inl rfl
            · exact Or.inr (List.mem_cons_of_mem _ hm)
          · simp only [jset, if_neg hk] at h
            rcases List.mem_cons.mp h with rfl | hm
            · exact Or.inr (List.mem_cons_self _ _)
            · rcases ih hm with h1 | h2
              · exact Or.inl h1
              · exact Or.inr (List.mem_cons_of_mem _ h2)

theorem mem_jset_self (m : List (String × α)) (k : String) (v : α) :
    (k, v) ∈ jset m k v := by
  induction m with
  | nil => simp [jset]
  | cons q rest ih =>
      cases q with
      | mk k1 v1 =>
          by_cases hk : k1 = k
          · subst hk
            simp only [jset, if_pos rfl]
            exact List.mem_cons_self _ _
          · simp only [jset, if_neg hk]
            exact List.mem_cons_of_mem _ ih

theorem mem_jset_of_ne {m : List (String × α)} {k : String} {v : α}
    {p : String × α} (hmem : p ∈ m) (hne : p.1 ≠ k) : p ∈ jset m k v := by
  induction m with
  | nil => simp at hmem
  | cons q rest ih =>
      cases q with
      | mk k1 v1 =>
          by_cases hk : k1 = k
          · subst hk
            simp only [jset, if_pos rfl]
            rcases List.mem_cons.mp hmem with rfl | h
            · exact absurd rfl hne
            · exact List.mem_cons_of_mem _ h
          · simp only [jset, if_neg hk]
            rcases List.mem_cons.mp hmem with rfl | h
            · exact List.mem_cons_self _ _
            · exact List.mem_cons_of_mem _ (ih h)

theorem length_jset_of_mem {m : List (String × α)} {k : String} (v : α)
    (h : k ∈ keys m) : (jset m k v).length = m.length := by
  induction m with
  | nil => simp [keys] at h
  | cons q rest ih =>
      cases q with
      | mk k1 v1 =>
          by_cases hk : k1 = k
          · simp [jset, hk]
          · rw [keys_cons, List.mem_cons] at h
            rcases h with rfl | h
            · exact absurd rfl hk
            · simp [jset, hk, ih h]

theorem length_jset_of_not_mem {m : List (String × α)} {k : String} (v : α)
    (h : k ∉ keys m) : (jset m k v).length = m.length + 1 := by
  rw [jset_of_not_mem v h]
  simp

theorem length_jerase_of_mem {m : List (String × α)} {k : String}
    (h : k ∈ keys m) : (jerase m k).length + 1 = m.length := by
  induction m with
  | nil => simp [keys] at h
  | cons q rest ih =>
      cases q with
      | mk k1 v1 =>
          by_cases hk : k1 = k
          · simp [jerase, hk]
          · rw [keys_cons, List.mem_cons] at h
            rcases h with rfl | h
            · exact absurd rfl hk
            · simp [jerase, hk]
              exact ih h

theorem keys_not_mem_ne {m : List (String × α)} {k : String}
    {p : String × α} (h : k ∉ keys m) (hp : p ∈ m) : p.1 ≠ k := by
  intro he
  have hp1 := keys_mem_of_mem hp
  rw [he] at hp1
  exact h hp1

theorem jset_cons_eq (rest : List (String × α)) (k : String) (v1 v : α) :
    jset ((k, v1) :: rest) k v = (k, v) :: rest := by
  simp [jset]

theorem jset_cons_ne (rest : List (String × α)) {k1 k : String}
    (v1 v : α) (h : k1 ≠ k) :
    jset ((k1, v1) :: rest) k v = (k1, v1) :: jset rest k v := by
  simp [jset, h]

theorem jerase_cons_eq (rest : List (String × α)) (k : String) (v1 : α) :
    jerase ((k, v1) :: rest) k = rest := by
  simp [jerase]

theorem jerase_cons_ne (rest : List (String × α)) {k1 k : String}
    (v1 : α) (h : k1 ≠ k) :
    jerase ((k1, v1) :: rest) k = (k1, v1) :: jerase rest k := by
  simp [jerase, h]

theorem mem_jset_iff {m : List (String × α)} {k : String} {v : α}
    {p : String × α} (hnd : (keys m).Nodup) :
    p ∈ jset m k v ↔ p = (k, v) ∨ (p ∈ m ∧ p.1 ≠ k) := by
  induction m with
  | nil =>
      simp [jset]
  | cons q rest ih =>
      cases q with
      | mk k1 v1 =>
          rw [keys_cons, List.nodup_cons] at hnd
          by_cases hk : k1 = k
          · subst hk
            rw [jset_cons_eq, List.mem_cons, List.mem_cons]
            constructor
            · rintro (rfl | h)
              · exact Or.inl rfl
              · exact Or.inr ⟨Or.inr h, keys_not_mem_ne hnd.1 h⟩
            · rintro (rfl | ⟨rfl | h, hne⟩)
              · exact Or.inl rfl
              · exact absurd rfl hne
              · exact Or.inr h
          · rw [jset_cons_ne rest v1 v hk, List.mem_cons, List.mem_cons,
              ih hnd.2]
            constructor
            · rintro (rfl | (rfl | ⟨hmem, hne⟩))
              · exact Or.inr ⟨Or.inl rfl, hk⟩
              · exact Or.inl rfl
              · exact Or.inr ⟨Or.inr hmem, hne⟩
            · rintro (rfl | ⟨rfl | hmem, hne⟩)
              · exact Or.inr (Or.inl rfl)
              · exact Or.inl rfl
              · exact Or.inr (Or.inr ⟨hmem, hne⟩)

theorem mem_jerase_iff {m : List (String × α)} {k : String}
    {p : String × α} (hnd : (keys m).Nodup) :
    p ∈ jerase m k ↔ p ∈ m ∧ p.1 ≠ k := by
  induction m with
  | nil => simp [jerase]
  | cons q rest ih =>
      cases q with
      | mk k1 v1 =>
          rw [keys_cons, List.nodup_cons] at hnd
          by_cases hk : k1 = k
          · subst hk
            rw [jerase_cons_eq, List.mem_cons]
            constructor
            · intro h
              exact ⟨Or.inr h, keys_not_mem_ne hnd.1 h⟩
            · rintro ⟨rfl | hmem, hne⟩
              · exact absurd rfl hne
              · exact hmem
          · rw [jerase_cons_ne rest v1 hk, List.mem_cons, List.mem_cons,
              ih hnd.2]
            constructor
            · rintro (rfl | ⟨hmem, hne⟩)
              · exact ⟨Or.inl rfl, hk⟩
              · exact ⟨Or.inr hmem, hne⟩
            · rintro ⟨rfl | hmem, hne⟩
              · exact Or.inl rfl
              · exact Or.inr ⟨hmem, hne⟩

end JMapLemmas

/-! Characterization of the broadcast loop. -/

theorem foldl_if_append {β γ : Type} (c : β → Prop) [DecidablePred c]
    (f : β → List γ) (l : List β) (acc : List γ) :
    l.foldl (fun a x => if c x then a ++ f x else a) acc
      = acc ++ l.flatMap (fun x => if c x then f x else []) := by
  induction l generalizing acc with
  | nil => simp
  | cons x rest ih =>
      rw [List.foldl_cons]
      by_cases hx : c x
      · rw [if_pos hx, ih, List.flatMap_cons, if_pos hx, List.append_assoc]
      · rw [if_neg hx, ih, List.flatMap_cons, if_neg hx, List.nil_append]

/-- The broadcast is the concatenation, in membership-map order, of each
non-excluded member's own delivery attempt. -/
theorem broadcastToRoom_eq (env : SockEnv) (st : WSState) (roomId : String)
    (msg : OutMsg) (ex : Option String) (room : Room)
    (h : jget st.rooms roomId = some room) :
    broadcastToRoom env st roomId msg ex
      = room.users.flatMap (fun p =>
          if ex = some p.1 then [] else sendToUser env p.2.socket msg) := by
  have h1 : broadcastToRoom env st roomId msg ex
      = room.users.foldl
          (fun acc p =>
            if ex ≠ some p.1 ∧ env.readyState p.2.socket then
              acc ++ sendToUser env p.2.socket msg
            else acc)
          [] := by
    simp only [broadcastToRoom, h]
  rw [h1]
  refine (foldl_if_append
    (fun p : String × User => ex ≠ some p.1 ∧ env.readyState p.2.socket)
    (fun p => sendToUser env p.2.socket msg) room.users []).trans ?_
  rw [List.nil_append]
  have h2 : (fun p : String × User =>
      if ex ≠ some p.1 ∧ env.readyState p.2.socket then
        sendToUser env p.2.socket msg
      else [])
      = (fun p : String × User =>
          if ex = some p.1 then [] else sendToUser env p.2.socket msg) := by
    funext p
    by_cases he : ex = some p.1
    · rw [if_pos he, if_neg]
      simp [he]
    · rw [if_neg he]
      by_cases hr : env.readyState p.2.socket
      · rw [if_pos ⟨he, hr⟩]
      · rw [if_neg, sendToUser, if_neg]
        · simpa using hr
        · simp [hr]
  rw [h2]

theorem inv_initState : Inv initState := by
  constructor <;> simp [initState, keys]

theorem handleLeaveRoom_of_no_user (env : SockEnv) (st : WSState)
    (userId m : String) (now : Nat) (h : jget st.users userId = none) :
    handleLeaveRoom env st userId m now = (st, []) := by
  simp only [handleLeaveRoom, h]

theorem handleLeaveRoom_of_no_room (env : SockEnv) (st : WSState)
    (userId m : String) (now : Nat) (user : User)
    (hu : jget st.users userId = some user)
    (hr : jget st.rooms user.roomId = none) :
    handleLeaveRoom env st userId m now = (st, []) := by
  simp only [handleLeaveRoom, hu, hr]

/-- Unfolding of `handleLeaveRoom` when the user and its room exist. -/
theorem handleLeaveRoom_of_some (env : SockEnv) (st : WSState)
    (userId m : String) (now : Nat) (user : User) (room : Room)
    (hu : jget st.users userId = some user)
    (hr : jget st.rooms user.roomId = some room) :
    handleLeaveRoom env st userId m now =
      (if (jerase room.users userId).length = 0 then
        { rooms := jerase (jset st.rooms user.roomId
            { room with users := jerase room.users userId }) room.id
          users := jerase st.users userId }
       else
        { rooms := jset st.rooms user.roomId
            { room with users := jerase room.users userId }
          users := jerase st.users userId },
       broadcastToRoom env
         { rooms := jset st.rooms user.roomId
             { room with users := jerase room.users userId }
           users := jerase st.users userId }
         room.id
         (OutMsg.user_left user.toInfo
           (getRoomUsers
             { rooms := jset st.rooms user.roomId
                 { room with users := jerase room.users userId }
               users := jerase st.users userId }
             room.id)
           m (user.name ++ " 离开了房间") now)
         none) := by
  simp only [handleLeaveRoom, hu, hr]

/-- Preservation of the invariant by `handleLeaveRoom`. -/
theorem leave_inv (env : SockEnv) (st : WSState) (userId m : String)
    (now : Nat) (hInv : Inv st) :
    Inv (handleLeaveRoom env st userId m now).1 := by
  cases hget : jget st.users userId with
  | none =>
      rw [handleLeaveRoom_of_no_user env st userId m now hget]
      exact hInv
  | some user =>
      have hmemU : (userId, user) ∈ st.users := jget_mem hget
      obtain ⟨room, hr, hm⟩ := hInv.userMem _ hmemU
      have hmemR : (user.roomId, room) ∈ st.rooms := jget_mem hr
      have hrid : room.id = user.roomId := hInv.roomKey _ hmemR
      have hndm : (keys room.users).Nodup := hInv.memNodup _ hmemR
      have hmemRU : (userId, user) ∈ room.users := jget_mem hm
      rw [handleLeaveRoom_of_some env st userId m now user room hget hr]
      dsimp only
      rw [hrid]
      set room1 : Room :=
        { id := user.roomId, name := room.name
          users := jerase room.users userId, createdAt := room.createdAt }
        with hroom1
      set R1 : List (String × Room) := jset st.rooms user.roomId room1
        with hR1
      set U1 : List (String × User) := jerase st.users userId with hU1
      have hndR1 : (keys R1).Nodup := nodup_keys_jset _ hInv.roomsNodup
      have hndU1 : (keys U1).Nodup := nodup_keys_jerase _ hInv.usersNodup
      have memR1 : ∀ p : String × Room, p ∈ R1 →
          p = (user.roomId, room1) ∨ (p ∈ st.rooms ∧ p.1 ≠ user.roomId) :=
        fun p hp => (mem_jset_iff hInv.roomsNodup).mp hp
      have memU1 : ∀ p : String × User, p ∈ U1 →
          p ∈ st.users ∧ p.1 ≠ userId :=
        fun p hp => (mem_jerase_iff hInv.usersNodup).mp hp
      have memRU1 : ∀ q : String × User, q ∈ room1.users →
          q ∈ room.users ∧ q.1 ≠ userId :=
        fun q hq => (mem_jerase_iff hndm).mp hq
      have transfer : ∀ p ∈ R1, ∀ q ∈ p.2.users,
          jget U1 q.1 = some q.2 ∧ q.2.roomId = p.1 := by
        intro p hp q hq
        rcases memR1 p hp with rfl | ⟨hpo, hpne⟩
        · obtain ⟨hq1, hq2⟩ := memRU1 q hq
          obtain ⟨hju, hjr⟩ := hInv.memUser _ hmemR q hq1
          refine ⟨?_, hjr⟩
          rw [hU1, jget_jerase_ne st.users (Ne.symm hq2)]
          exact hju
        · obtain ⟨hju, hjr⟩ := hInv.memUser p hpo q hq
          have hq2 : q.1 ≠ userId := by
            intro he
            rw [he, hget] at hju
            injection hju with h2
            rw [← h2] at hjr
            exact hpne hjr.symm
          refine ⟨?_, hjr⟩
          rw [hU1, jget_jerase_ne st.users (Ne.symm hq2)]
          exact hju
      have namesT : ∀ p ∈ R1, ∃ p0 ∈ st.rooms, p0.1 = p.1 ∧
          p0.2.name = p.2.name := by
        intro p hp
        rcases memR1 p hp with rfl | ⟨hpo, _⟩
        · exact ⟨(user.roomId, room), hmemR, rfl, rfl⟩
        · exact ⟨p, hpo, rfl, rfl⟩
      have memNodupT : ∀ p ∈ R1, (keys p.2.users).Nodup := by
        intro p hp
        rcases memR1 p hp with rfl | ⟨hpo, _⟩
        · exact nodup_keys_jerase _ hndm
        · exact hInv.memNodup p hpo
      have roomKeyT : ∀ p ∈ R1, p.2.id = p.1 := by
        intro p hp
        rcases memR1 p hp with rfl | ⟨hpo, _⟩
        · rfl
        · exact hInv.roomKey p hpo
      have userKeyT : ∀ p ∈ U1, p.2.id = p.1 :=
        fun p hp => hInv.userKey p (memU1 p hp).1
      have namesUniqT : ∀ p ∈ R1, ∀ q ∈ R1, p.2.name = q.2.name →
          p.1 = q.1 := by
        intro p hp q hq hname
        obtain ⟨p0, hp0, hp01, hp0n⟩ := namesT p hp
        obtain ⟨q0, hq0, hq01, hq0n⟩ := namesT q hq
        rw [← hp01, ← hq01]
        exact hInv.namesUniq p0 hp0 q0 hq0 (by rw [hp0n, hq0n, hname])
      have userMemT : ∀ p ∈ U1, ∃ r, jget R1 p.2.roomId = some r ∧
          jget r.users p.1 = some p.2 := by
        intro p hp
        obtain ⟨hpo, hpne⟩ := memU1 p hp
        obtain ⟨r, hrr, hmm⟩ := hInv.userMem p hpo
        by_cases hcase : p.2.roomId = user.roomId
        · rw [hcase, hr] at hrr
          injection hrr with hre
          refine ⟨room1, ?_, ?_⟩
          · rw [hcase, hR1]
            exact jget_jset_self st.rooms user.roomId room1
          · show jget (jerase room.users userId) p.1 = some p.2
            rw [jget_jerase_ne room.users (Ne.symm hpne)]
            rw [← hre] at hmm
            exact hmm
        · refine ⟨r, ?_, hmm⟩
          rw [hR1, jget_jset_ne st.rooms room1
            (fun he => hcase he.symm)]
          exact hrr
      obtain ⟨L1, L2, hL, hnotL⟩ := jget_decomp hr
      obtain ⟨mu1, mu2, hM, hnotM⟩ := jget_decomp hm
      obtain ⟨Ua, Ub, hU, hnotU⟩ := jget_decomp hget
      have hR1eq : R1 = L1 ++ (user.roomId, room1) :: L2 := by
        rw [hR1]
        conv_lhs => rw [hL]
        exact jset_mid L1 L2 user.roomId room room1 hnotL
      have hU1eq : U1 = Ua ++ Ub := by
        rw [hU1]
        conv_lhs => rw [hU]
        exact jerase_mid Ua Ub userId user hnotU
      have hru1 : room1.users = mu1 ++ mu2 := by
        show jerase room.users userId = mu1 ++ mu2
        conv_lhs => rw [hM]
        exact jerase_mid mu1 mu2 userId user hnotM
      have hcount0 := hInv.count
      rw [hL, hU] at hcount0
      simp only [List.map_append, List.sum_append, List.map_cons,
        List.sum_cons, List.length_append, List.length_cons] at hcount0
      rw [hM] at hcount0
      simp only [List.length_append, List.length_cons] at hcount0
      by_cases hlen : (jerase room.users userId).length = 0
      · rw [if_pos hlen]
        have hmunil : mu1 = [] ∧ mu2 = [] := by
          have h0 : (mu1 ++ mu2).length = 0 := by
            rw [← hru1]
            exact hlen
          rw [List.length_append] at h0
          constructor
          · exact List.eq_nil_of_length_eq_zero (by omega)
          · exact List.eq_nil_of_length_eq_zero (by omega)
        have hronly : room.users = [(userId, user)] := by
          rw [hM, hmunil.1, hmunil.2]
          rfl
        have memE : ∀ p : String × Room, p ∈ jerase R1 user.roomId →
            p ∈ st.rooms ∧ p.1 ≠ user.roomId := by
          intro p hp
          obtain ⟨hp1, hp2⟩ := (mem_jerase_iff hndR1).mp hp
          rcases memR1 p hp1 with rfl | hold
          · exact absurd rfl hp2
          · exact hold
        have hEeq : jerase R1 user.roomId = L1 ++ L2 := by
          rw [hR1eq]
          exact jerase_mid L1 L2 user.roomId room1 hnotL
        refine ⟨?_, hndU1, ?_, ?_, userKeyT, ?_, ?_, ?_, ?_, ?_⟩
        · exact nodup_keys_jerase _ hndR1
        · exact fun p hp => hInv.memNodup p (memE p hp).1
        · exact fun p hp => hInv.roomKey p (memE p hp).1
        · exact fun p hp => hInv.nonEmpty p (memE p hp).1
        · intro p hp q hq hname
          exact namesUniqT p (mem_of_mem_jerase hp) q
            (mem_of_mem_jerase hq) hname
        · intro p hp q hq
          exact transfer p (mem_of_mem_jerase hp) q hq
        · intro p hp
          obtain ⟨hpo, hpne⟩ := memU1 p hp
          obtain ⟨r, hrr, hmm⟩ := hInv.userMem p hpo
          have hcase : p.2.roomId ≠ user.roomId := by
            intro he
            rw [he, hr] at hrr
            injection hrr with hre
            have hnone : jget [(userId, user)] p.1 = none := by
              rw [jget_eq_none_iff]
              intro hk
              have hpu : p.1 = userId := by
                simpa [keys] using hk
              exact hpne hpu
            rw [← hre, hronly, hnone] at hmm
            exact absurd hmm (by simp)
          obtain ⟨r2, hrr2, hmm2⟩ := userMemT p hp
          refine ⟨r2, ?_, hmm2⟩
          rw [jget_jerase_ne R1 (fun he => hcase he.symm)]
          exact hrr2
        · rw [hEeq, hU1eq]
          simp only [List.map_append, List.sum_append, List.length_append]
          have hl0 : room1.users.length = 0 := hlen
          rw [hru1, List.length_append] at hl0
          omega
      · rw [if_neg hlen]
        refine ⟨hndR1, hndU1, memNodupT, roomKeyT, userKeyT, ?_,
          namesUniqT, transfer, userMemT, ?_⟩
        · intro p hp
          rcases memR1 p hp with rfl | ⟨hpo, _⟩
          · intro he
            apply hlen
            rw [List.length_eq_zero]
            exact he
          · exact hInv.nonEmpty p hpo
        · rw [hR1eq, hU1eq]
          simp only [List.map_append, List.sum_append, List.map_cons,
            List.sum_cons, List.length_append]
          have hl1 : room1.users.length = mu1.length + mu2.length := by
            rw [hru1, List.length_append]
          dsimp only at hl1 ⊢
          omega

theorem jset_ne_nil {α : Type} (m : List (String × α)) (k : String)
    (v : α) : jset m k v ≠ [] := by
  cases m with
  | nil => simp [jset]
  | cons p rest =>
      cases p with
      | mk k1 v1 =>
          by_cases hk : k1 = k
          · subst hk
            rw [jset_cons_eq]
            simp
          · rw [jset_cons_ne rest v1 v hk]
            simp

/-- After a leave, the departing session has no user record. -/
theorem leave_users_self (env : SockEnv) (st : WSState) (userId m : String)
    (now : Nat) (hInv : Inv st) :
    jget (handleLeaveRoom env st userId m now).1.users userId = none := by
  cases hget : jget st.users userId with
  | none =>
      rw [handleLeaveRoom_of_no_user env st userId m now hget]
      exact hget
  | some user =>
      obtain ⟨room, hr, hm⟩ := hInv.userMem _ (jget_mem hget)
      rw [handleLeaveRoom_of_some env st userId m now user room hget hr]
      dsimp only
      split
      · exact jget_jerase_self hInv.usersNodup
      · exact jget_jerase_self hInv.usersNodup

/-- A leave does not touch other sessions' user records. -/
theorem leave_users_ne (env : SockEnv) (st : WSState) (userId m : String)
    (now : Nat) (k : String) (hk : k ≠ userId) (hInv : Inv st) :
    jget (handleLeaveRoom env st userId m now).1.users k
      = jget st.users k := by
  cases hget : jget st.users userId with
  | none =>
      rw [handleLeaveRoom_of_no_user env st userId m now hget]
  | some user =>
      obtain ⟨room, hr, hm⟩ := hInv.userMem _ (jget_mem hget)
      rw [handleLeaveRoom_of_some env st userId m now user room hget hr]
      dsimp only
      split
      · exact jget_jerase_ne st.users (Ne.symm hk)
      · exact jget_jerase_ne st.users (Ne.symm hk)

/-- A leave creates no room: an absent room id stays absent. -/
theorem leave_rooms_none (env : SockEnv) (st : WSState) (userId m : String)
    (now : Nat) (k : String) (hInv : Inv st)
    (hk : jget st.rooms k = none) :
    jget (handleLeaveRoom env st userId m now).1.rooms k = none := by
  cases hget : jget st.users userId with
  | none =>
      rw [handleLeaveRoom_of_no_user env st userId m now hget]
      exact hk
  | some user =>
      obtain ⟨room, hr, hm⟩ := hInv.userMem _ (jget_mem hget)
      have hne : user.roomId ≠ k := by
        intro he
        rw [he, hk] at hr
        exact absurd hr (by simp)
      have hrid : room.id = user.roomId := hInv.roomKey _ (jget_mem hr)
      rw [handleLeaveRoom_of_some env st userId m now user room hget hr]
      dsimp only
      split
      · rw [hrid, jget_jerase_ne _ hne, jget_jset_ne _ _ hne]
        exact hk
      · rw [jget_jset_ne _ _ hne]
        exact hk

/-- Core invariant-preservation step of a successful join: inserting the
joining user into the target room and the user map. -/
theorem join_core_inv (st1 : WSState) (rooms0 : List (String × Room))
    (rid : String) (room0 : Room) (userId : String) (user : User)
    (hInv1 : Inv st1)
    (h2 : (keys rooms0).Nodup)
    (h3 : jget rooms0 rid = some room0)
    (h5 : ∀ p ∈ rooms0, p.1 ≠ rid → p ∈ st1.rooms)
    (h6 : ∀ p ∈ st1.rooms, p.1 ≠ rid → p ∈ rooms0)
    (h7 : room0.id = rid)
    (h8 : (keys room0.users).Nodup)
    (h9 : userId ∉ keys room0.users)
    (h10 : ∀ q ∈ room0.users, jget st1.users q.1 = some q.2 ∧
        q.2.roomId = rid)
    (h11 : (rooms0.map (fun p => p.2.users.length)).sum = st1.users.length)
    (h12 : jget st1.users userId = none)
    (h13 : user.id = userId)
    (h14 : user.roomId = rid)
    (h15 : ∀ p ∈ rooms0, p.2.name = room0.name → p.1 = rid)
    (h17 : jget st1.rooms rid = none ∨ jget st1.rooms rid = some room0) :
    Inv { rooms := jset rooms0 rid
            { room0 with users := jset room0.users userId user }
          users := jset st1.users userId user } := by
  set room1 : Room := { room0 with users := jset room0.users userId user }
    with hroom1
  have huidK : userId ∉ keys st1.users := jget_eq_none_iff.mp h12
  have memR2 : ∀ p : String × Room,
      p ∈ jset rooms0 rid room1 →
      p = (rid, room1) ∨ (p ∈ rooms0 ∧ p.1 ≠ rid) :=
    fun p hp => (mem_jset_iff h2).mp hp
  have memU2 : ∀ p : String × User,
      p ∈ jset st1.users userId user →
      p = (userId, user) ∨ (p ∈ st1.users ∧ p.1 ≠ userId) :=
    fun p hp => (mem_jset_iff hInv1.usersNodup).mp hp
  have memRU : ∀ q : String × User, q ∈ room1.users →
      q = (userId, user) ∨ (q ∈ room0.users ∧ q.1 ≠ userId) :=
    fun q hq => (mem_jset_iff h8).mp hq
  refine ⟨?_, ?_, ?_, ?_, ?_, ?_, ?_, ?_, ?_, ?_⟩
  · exact nodup_keys_jset _ h2
  · exact nodup_keys_jset _ hInv1.usersNodup
  · intro p hp
    rcases memR2 p hp with rfl | ⟨hpo, hpne⟩
    · exact nodup_keys_jset _ h8
    · exact hInv1.memNodup p (h5 p hpo hpne)
  · intro p hp
    rcases memR2 p hp with rfl | ⟨hpo, hpne⟩
    · exact h7
    · exact hInv1.roomKey p (h5 p hpo hpne)
  · intro p hp
    rcases memU2 p hp with rfl | ⟨hpo, _⟩
    · exact h13
    · exact hInv1.userKey p hpo
  · intro p hp
    rcases memR2 p hp with rfl | ⟨hpo, hpne⟩
    · exact jset_ne_nil _ _ _
    · exact hInv1.nonEmpty p (h5 p hpo hpne)
  · intro p hp q hq hname
    rcases memR2 p hp with rfl | ⟨hpo, hpne⟩ <;>
      rcases memR2 q hq with rfl | ⟨hqo, hqne⟩
    · rfl
    · exact absurd (h15 q hqo (by rw [← hname])) hqne
    · exact absurd (h15 p hpo (by rw [hname])) hpne
    · exact hInv1.namesUniq p (h5 p hpo hpne) q (h5 q hqo hqne) hname
  · intro p hp q hq
    rcases memR2 p hp with rfl | ⟨hpo, hpne⟩
    · rcases memRU q hq with rfl | ⟨hqo, hqne⟩
      · exact ⟨jget_jset_self st1.users userId user, h14⟩
      · obtain ⟨hju, hjr⟩ := h10 q hqo
        refine ⟨?_, hjr⟩
        rw [jget_jset_ne st1.users user (Ne.symm hqne)]
        exact hju
    · obtain ⟨hju, hjr⟩ := hInv1.memUser p (h5 p hpo hpne) q hq
      have hqne : q.1 ≠ userId := by
        intro he
        rw [he, h12] at hju
        exact absurd hju (by simp)
      refine ⟨?_, hjr⟩
      rw [jget_jset_ne st1.users user (Ne.symm hqne)]
      exact hju
  · intro p hp
    rcases memU2 p hp with rfl | ⟨hpo, hpne⟩
    · refine ⟨room1, ?_, ?_⟩
      · rw [h14]
        exact jget_jset_self rooms0 rid room1
      · show jget (jset room0.users userId user) userId = some user
        exact jget_jset_self room0.users userId user
    · obtain ⟨r, hrr, hmm⟩ := hInv1.userMem p hpo
      by_cases hcase : p.2.roomId = rid
      · rcases h17 with h17a | h17b
        · rw [hcase, h17a] at hrr
          exact absurd hrr (by simp)
        · rw [hcase, h17b] at hrr
          injection hrr with hre
          refine ⟨room1, ?_, ?_⟩
          · rw [hcase]
            exact jget_jset_self rooms0 rid room1
          · show jget (jset room0.users userId user) p.1 = some p.2
            rw [jget_jset_ne room0.users user (Ne.symm hpne)]
            rw [← hre] at hmm
            exact hmm
      · refine ⟨r, ?_, hmm⟩
        rw [jget_jset_ne rooms0 room1 (fun he => hcase he.symm)]
        have hmem0 : (p.2.roomId, r) ∈ rooms0 :=
          h6 _ (jget_mem hrr) hcase
        exact jget_of_mem_nodup h2 hmem0
  · obtain ⟨A, B, hAB, hnotA⟩ := jget_decomp h3
    have hR2eq : jset rooms0 rid room1 = A ++ (rid, room1) :: B := by
      conv_lhs => rw [hAB]
      exact jset_mid A B rid room0 room1 hnotA
    have hU2len : (jset st1.users userId user).length
        = st1.users.length + 1 := length_jset_of_not_mem user huidK
    have hRU1len : (jset room0.users userId user).length
        = room0.users.length + 1 := length_jset_of_not_mem user h9
    have h11b := h11
    rw [hAB] at h11b
    simp only [List.map_append, List.sum_append, List.map_cons,
      List.sum_cons] at h11b
    rw [hR2eq, hU2len]
    simp only [List.map_append, List.sum_append, List.map_cons,
      List.sum_cons]
    omega

/-- Preservation of the invariant by `handleJoinRoom`, given a fresh room
id for the possibly created room. -/
theorem join_inv (env : SockEnv) (st : WSState) (userId sock : String)
    (payload : JoinPayload) (ids : JoinIds) (now : Nat)
    (hInv : Inv st) (hfresh : jget st.rooms ids.newRoomId = none) :
    Inv (handleJoinRoom env st userId sock payload ids now).1 := by
  by_cases hv1 : falsy payload.roomName ∨ falsy payload.userName ∨
      falsy payload.userRole
  · simp only [handleJoinRoom, if_pos hv1]
    exact hInv
  · by_cases hv2 : payload.userRole.getD "" ≠ "product_manager" ∧
        payload.userRole.getD "" ≠ "developer"
    · simp only [handleJoinRoom, if_neg hv1, if_pos hv2]
      exact hInv
    · simp only [handleJoinRoom, if_neg hv1, if_neg hv2]
      have hInv1 : Inv (handleLeaveRoom env st userId ids.leaveMsgId now).1 :=
        leave_inv env st userId ids.leaveMsgId now hInv
      have hu1 : jget (handleLeaveRoom env st userId
          ids.leaveMsgId now).1.users userId = none :=
        leave_users_self env st userId ids.leaveMsgId now hInv
      have hfresh1 : jget (handleLeaveRoom env st userId
          ids.leaveMsgId now).1.rooms ids.newRoomId = none :=
        leave_rooms_none env st userId ids.leaveMsgId now ids.newRoomId
          hInv hfresh
      set st1 : WSState := (handleLeaveRoom env st userId ids.leaveMsgId
        now).1 with hst1
      cases hfound : st1.rooms.find?
          (fun p => p.2.name == payload.roomName.getD "") with
      | some p =>
          have hp_mem : p ∈ st1.rooms := List.mem_of_find?_eq_some hfound
          have hp_name : p.2.name = payload.roomName.getD "" := by
            have hb := List.find?_some hfound
            exact beq_iff_eq.mp hb
          have h3 : jget st1.rooms p.1 = some p.2 :=
            jget_of_mem_nodup hInv1.roomsNodup hp_mem
          have h7 : p.2.id = p.1 := hInv1.roomKey p hp_mem
          have h9 : userId ∉ keys p.2.users := by
            intro hk
            obtain ⟨w, hw⟩ := mem_keys_iff.mp hk
            have hq : jget st1.users userId = some w :=
              (hInv1.memUser p hp_mem (userId, w) hw).1
            rw [hu1] at hq
            exact absurd hq (by simp)
          have h10 : ∀ q ∈ p.2.users, jget st1.users q.1 = some q.2 ∧
              q.2.roomId = p.1 := hInv1.memUser p hp_mem
          have h15 : ∀ q ∈ st1.rooms, q.2.name = p.2.name → q.1 = p.1 :=
            fun q hq hname => hInv1.namesUniq q hq p hp_mem hname
          exact join_core_inv st1 st1.rooms p.1 p.2 userId
            { id := userId, socket := sock
              role := toRole (payload.userRole.getD "")
              name := payload.userName.getD "", roomId := p.2.id
              joinedAt := now }
            hInv1 hInv1.roomsNodup h3 (fun q hq _ => hq) (fun q hq _ => hq)
            h7 (hInv1.memNodup p hp_mem) h9 h10 hInv1.count hu1 rfl h7 h15
            (Or.inr h3)
      | none =>
          have hnotK : ids.newRoomId ∉ keys st1.rooms :=
            jget_eq_none_iff.mp hfresh1
          have hnone : ∀ q ∈ st1.rooms,
              q.2.name ≠ payload.roomName.getD "" := by
            intro q hq hname
            have hb := List.find?_eq_none.mp hfound q hq
            rw [hname] at hb
            simp at hb
          refine join_core_inv st1
            (jset st1.rooms ids.newRoomId
              { id := ids.newRoomId, name := payload.roomName.getD ""
                users := [], createdAt := now })
            ids.newRoomId
            { id := ids.newRoomId, name := payload.roomName.getD ""
              users := [], createdAt := now }
            userId
            { id := userId, socket := sock
              role := toRole (payload.userRole.getD "")
              name := payload.userName.getD ""
              roomId := ids.newRoomId, joinedAt := now }
            hInv1 (nodup_keys_jset _ hInv1.roomsNodup)
            (jget_jset_self st1.rooms ids.newRoomId _)
            ?_ ?_ rfl (by simp [keys]) (by simp [keys]) ?_ ?_ hu1 rfl rfl
            ?_ (Or.inl hfresh1)
          · intro q hq hqne
            rcases (mem_jset_iff hInv1.roomsNodup).mp hq with rfl | ⟨hqo, _⟩
            · exact absurd rfl hqne
            · exact hqo
          · intro q hq hqne
            exact mem_jset_of_ne hq hqne
          · intro q hq
            exact absurd hq (List.not_mem_nil q)
          · rw [jset_of_not_mem _ hnotK]
            simp only [List.map_append, List.sum_append, List.map_cons,
              List.sum_cons, List.map_nil, List.sum_nil]
            rw [hInv1.count]
            simp
          · intro q hq hname
            rcases (mem_jset_iff hInv1.roomsNodup).mp hq with rfl | ⟨hqo, _⟩
            · rfl
            · exact absurd hname (hnone q hqo)

/-- A successful chat broadcast leaves the state unchanged. -/
theorem handleChatMessage_ok_state (env : SockEnv) (st : WSState)
    (userId : String) (payload : ChatPayload) (msgId : String) (now : Nat)
    (r : WSState × List Event)
    (h : handleChatMessage env st userId payload msgId now = Except.ok r) :
    r.1 = st := by
  cases hu : jget st.users userId with
  | none => simp [handleChatMessage, hu] at h
  | some user =>
      cases hr : jget st.rooms user.roomId with
      | none => simp [handleChatMessage, hu, hr] at h
      | some room =>
          simp only [handleChatMessage, hu, hr] at h
          injection h with h2
          rw [← h2]

/-- Preservation of the invariant by a single callback. -/
theorem step_inv (st : WSState) (op : Op) (hInv : Inv st)
    (hf : freshOk st op) : Inv (runOp st op).1 := by
  cases op with
  | connect u s env => exact hInv
  | message u s env ib ids cm now =>
      cases ib with
      | malformed => exact hInv
      | parsed f =>
          cases f with
          | join_room p => exact join_inv env st u s p ids now hInv hf
          | chat_message p =>
              cases hc : handleChatMessage env st u p cm now with
              | ok r =>
                  have hst : (runOp st (Op.message u s env
                      (Inbound.parsed (Frame.chat_message p)) ids cm
                      now)).1 = r.1 := by
                    simp only [runOp, onRawMessage, handleMessage, hc]
                  rw [hst,
                    handleChatMessage_ok_state env st u p cm now r hc]
                  exact hInv
              | error e =>
                  have hst : (runOp st (Op.message u s env
                      (Inbound.parsed (Frame.chat_message p)) ids cm
                      now)).1 = st := by
                    simp only [runOp, onRawMessage, handleMessage, hc]
                  rw [hst]
                  exact hInv
          | leave_room => exact leave_inv env st u ids.leaveMsgId now hInv
          | list_users => exact hInv
          | unknown => exact hInv
  | disconnect u env m now => exact leave_inv env st u m now hInv

/-- Every reachable server state satisfies the invariant. -/
theorem reach_inv (st : WSState) (h : Reachable st) : Inv st := by
  induction h with
  | init => exact inv_initState
  | step op hr hf ih => exact step_inv _ op ih hf

/-- Unfolding of a valid `handleJoinRoom` that finds an existing room. -/
theorem handleJoinRoom_found (env : SockEnv) (st : WSState)
    (userId sock : String) (payload : JoinPayload) (ids : JoinIds)
    (now : Nat) (p : String × Room)
    (hv1 : ¬(falsy payload.roomName = true ∨ falsy payload.userName = true ∨
        falsy payload.userRole = true))
    (hv2 : ¬(payload.userRole.getD "" ≠ "product_manager" ∧
        payload.userRole.getD "" ≠ "developer"))
    (hfound : (handleLeaveRoom env st userId ids.leaveMsgId
        now).1.rooms.find? (fun q => q.2.name == payload.roomName.getD "")
        = some p) :
    handleJoinRoom env st userId sock payload ids now =
      (let st1 := (handleLeaveRoom env st userId ids.leaveMsgId now).1
       let user : User :=
         { id := userId, socket := sock
           role := toRole (payload.userRole.getD "")
           name := payload.userName.getD "", roomId := p.2.id
           joinedAt := now }
       let room1 : Room := { p.2 with users := jset p.2.users userId user }
       let st2 : WSState :=
         { rooms := jset st1.rooms p.1 room1
           users := jset st1.users userId user }
       (st2,
        (handleLeaveRoom env st userId ids.leaveMsgId now).2
          ++ sendToUser env sock
              (OutMsg.room_joined room1.id room1.name room1.users.length)
          ++ broadcastToRoom env st2 room1.id
              (OutMsg.user_joined user.toInfo (getRoomUsers st2 room1.id)
                ids.joinMsgId
                (payload.userName.getD "" ++ " 加入了房间") now)
              (some userId)
          ++ sendUserList env st2 userId)) := by
  simp only [handleJoinRoom, if_neg hv1, if_neg hv2, hfound]

/-- Unfolding of a valid `handleJoinRoom` that creates a new room. -/
theorem handleJoinRoom_create (env : SockEnv) (st : WSState)
    (userId sock : String) (payload : JoinPayload) (ids : JoinIds)
    (now : Nat)
    (hv1 : ¬(falsy payload.roomName = true ∨ falsy payload.userName = true ∨
        falsy payload.userRole = true))
    (hv2 : ¬(payload.userRole.getD "" ≠ "product_manager" ∧
        payload.userRole.getD "" ≠ "developer"))
    (hfound : (handleLeaveRoom env st userId ids.leaveMsgId
        now).1.rooms.find? (fun q => q.2.name == payload.roomName.getD "")
        = none) :
    handleJoinRoom env st userId sock payload ids now =
      (let st1 := (handleLeaveRoom env st userId ids.leaveMsgId now).1
       let user : User :=
         { id := userId, socket := sock
           role := toRole (payload.userRole.getD "")
           name := payload.userName.getD "", roomId := ids.newRoomId
           joinedAt := now }
       let room0 : Room :=
         { id := ids.newRoomId, name := payload.roomName.getD ""
           users := [], createdAt := now }
       let room1 : Room := { room0 with users := jset room0.users userId user }
       let st2 : WSState :=
         { rooms := jset (jset st1.rooms ids.newRoomId room0)
             ids.newRoomId room1
           users := jset st1.users userId user }
       (st2,
        (handleLeaveRoom env st userId ids.leaveMsgId now).2
          ++ sendToUser env sock
              (OutMsg.room_joined room1.id room1.name room1.users.length)
          ++ broadcastToRoom env st2 room1.id
              (OutMsg.user_joined user.toInfo (getRoomUsers st2 room1.id)
                ids.joinMsgId
                (payload.userName.getD "" ++ " 加入了房间") now)
              (some userId)
          ++ sendUserList env st2 userId)) := by
  simp only [handleJoinRoom, if_neg hv1, if_neg hv2, hfound]

/-- Each remaining open member of the departed room gets the `user_left`
broadcast of `handleLeaveRoom`. -/
theorem leave_events_mem (env : SockEnv) (st : WSState) (userId m : String)
    (now : Nat) (user : User) (room : Room) (hInv : Inv st)
    (hu : jget st.users userId = some user)
    (hr : jget st.rooms user.roomId = some room) :
    ∀ q ∈ room.users, q.1 ≠ userId → env.readyState q.2.socket = true →
      env.sendOk q.2.socket = true →
      ∃ infos, Event.sent q.2.socket
        (OutMsg.user_left user.toInfo infos m
          (user.name ++ " 离开了房间") now)
        ∈ (handleLeaveRoom env st userId m now).2 := by
  intro q hq hne hrs hok
  rw [handleLeaveRoom_of_some env st userId m now user room hu hr]
  dsimp only
  have hrid : room.id = user.roomId := hInv.roomKey _ (jget_mem hr)
  have hndm : (keys room.users).Nodup := hInv.memNodup _ (jget_mem hr)
  have hget1 : jget (jset st.rooms user.roomId
      { room with users := jerase room.users userId }) room.id
      = some { room with users := jerase room.users userId } := by
    rw [hrid]
    exact jget_jset_self st.rooms user.roomId _
  refine ⟨getRoomUsers
    { rooms := jset st.rooms user.roomId
        { room with users := jerase room.users userId }
      users := jerase st.users userId } room.id, ?_⟩
  rw [broadcastToRoom_eq env _ room.id _ none _ hget1]
  apply List.mem_flatMap.mpr
  refine ⟨q, mem_jerase_of_ne hq hne, ?_⟩
  rw [if_neg (by simp), sendToUser, if_pos hrs, if_pos hok]
  simp

/-- When the departing session was the only member, `handleLeaveRoom`
deletes the room from the directory. -/
theorem leave_room_deleted (env : SockEnv) (st : WSState)
    (userId m : String) (now : Nat) (user : User) (room : Room)
    (hInv : Inv st) (hu : jget st.users userId = some user)
    (hr : jget st.rooms user.roomId = some room)
    (honly : keys room.users = [userId]) :
    jget (handleLeaveRoom env st userId m now).1.rooms user.roomId
      = none := by
  rw [handleLeaveRoom_of_some env st userId m now user room hu hr]
  dsimp only
  have hex : ∃ w, room.users = [(userId, w)] := by
    cases hm : room.users with
    | nil =>
        rw [hm] at honly
        simp [keys] at honly
    | cons a rest =>
        cases a with
        | mk k v =>
            cases rest with
            | nil =>
                rw [hm] at honly
                simp [keys] at honly
                exact ⟨v, by rw [honly]⟩
            | cons b rest2 =>
                rw [hm] at honly
                simp [keys] at honly
  obtain ⟨w, hw⟩ := hex
  have hlen : (jerase room.users userId).length = 0 := by
    rw [hw, jerase_cons_eq]
    rfl
  rw [if_pos hlen]
  dsimp only
  rw [hInv.roomKey _ (jget_mem hr)]
  exact jget_jerase_self (nodup_keys_jset _ hInv.roomsNodup)

/-- A valid join never resurrects a room id that the preceding leave left
absent, provided the fresh id differs. -/
theorem join_rooms_none (env : SockEnv) (st : WSState)
    (userId sock : String) (payload : JoinPayload) (ids : JoinIds)
    (now : Nat) (k : String)
    (hv1 : ¬(falsy payload.roomName = true ∨ falsy payload.userName = true ∨
        falsy payload.userRole = true))
    (hv2 : ¬(payload.userRole.getD "" ≠ "product_manager" ∧
        payload.userRole.getD "" ≠ "developer"))
    (hk1 : jget (handleLeaveRoom env st userId ids.leaveMsgId now).1.rooms k
        = none)
    (hk2 : k ≠ ids.newRoomId) :
    jget (handleJoinRoom env st userId sock payload ids now).1.rooms k
      = none := by
  cases hfound : (handleLeaveRoom env st userId ids.leaveMsgId
      now).1.rooms.find? (fun q => q.2.name == payload.roomName.getD "")
      with
  | some p =>
      rw [handleJoinRoom_found env st userId sock payload ids now p
        hv1 hv2 hfound]
      dsimp only
      have hpk : k ≠ p.1 := by
        intro he
        have hpm := List.mem_of_find?_eq_some hfound
        have hkk := keys_mem_of_mem hpm
        rw [← he] at hkk
        exact (jget_eq_none_iff.mp hk1) hkk
      rw [jget_jset_ne _ _ (Ne.symm hpk)]
      exact hk1
  | none =>
      rw [handleJoinRoom_create env st userId sock payload ids now
        hv1 hv2 hfound]
      dsimp only
      rw [jget_jset_ne _ _ (fun he => hk2 he.symm),
        jget_jset_ne _ _ (fun he => hk2 he.symm)]
      exact hk1

/-- A valid join installs the joiner in the target room, whose name is the
requested one. -/
theorem join_valid_result (env : SockEnv) (st : WSState)
    (userId sock : String) (payload : JoinPayload) (ids : JoinIds)
    (now : Nat) (hInv : Inv st)
    (hv1 : ¬(falsy payload.roomName = true ∨ falsy payload.userName = true ∨
        falsy payload.userRole = true))
    (hv2 : ¬(payload.userRole.getD "" ≠ "product_manager" ∧
        payload.userRole.getD "" ≠ "developer")) :
    ∃ u room,
      jget (handleJoinRoom env st userId sock payload ids now).1.users
        userId = some u ∧
      jget (handleJoinRoom env st userId sock payload ids now).1.rooms
        u.roomId = some room ∧
      jget room.users userId = some u ∧
      room.name = payload.roomName.getD "" ∧
      u.id = userId ∧ u.name = payload.userName.getD "" ∧
      u.socket = sock ∧ u.role = toRole (payload.userRole.getD "") := by
  have hInv1 : Inv (handleLeaveRoom env st userId ids.leaveMsgId now).1 :=
    leave_inv env st userId ids.leaveMsgId now hInv
  cases hfound : (handleLeaveRoom env st userId ids.leaveMsgId
      now).1.rooms.find? (fun q => q.2.name == payload.roomName.getD "")
      with
  | some p =>
      rw [handleJoinRoom_found env st userId sock payload ids now p
        hv1 hv2 hfound]
      dsimp only
      have hp_mem : p ∈ (handleLeaveRoom env st userId ids.leaveMsgId
          now).1.rooms := List.mem_of_find?_eq_some hfound
      have h7 : p.2.id = p.1 := hInv1.roomKey p hp_mem
      have hb := List.find?_some hfound
      have hp_name : p.2.name = payload.roomName.getD "" :=
        beq_iff_eq.mp hb
      refine ⟨User.mk userId sock (toRole (payload.userRole.getD ""))
                (payload.userName.getD "") p.2.id now,
              Room.mk p.2.id p.2.name
                (jset p.2.users userId
                  (User.mk userId sock (toRole (payload.userRole.getD ""))
                    (payload.userName.getD "") p.2.id now))
                p.2.createdAt,
              jget_jset_self _ _ _, ?_, jget_jset_self _ _ _, hp_name,
              rfl, rfl, rfl, rfl⟩
      show jget (jset _ p.1 _) p.2.id = _
      rw [h7]
      exact jget_jset_self _ _ _
  | none =>
      rw [handleJoinRoom_create env st userId sock payload ids now
        hv1 hv2 hfound]
      dsimp only
      exact ⟨_, _, jget_jset_self _ _ _, jget_jset_self _ _ _,
        jget_jset_self _ _ _, rfl, rfl, rfl, rfl, rfl⟩

/-- Under the invariant, a session's record points to the unique room that
contains it: every other room lacks it. -/
theorem inv_unique_room (st : WSState) (hInv : Inv st) (userId : String)
    (u : User) (hu : jget st.users userId = some u) :
    ∀ p ∈ st.rooms, p.1 ≠ u.roomId → jget p.2.users userId = none := by
  intro p hp hne
  cases hw : jget p.2.users userId with
  | none => rfl
  | some w =>
      obtain ⟨hju, hjr⟩ := hInv.memUser p hp (userId, w) (jget_mem hw)
      rw [hu] at hju
      injection hju with h2
      rw [← h2] at hjr
      exact absurd hjr.symm hne

/-- The events of the leave phase are part of the events of a valid join. -/
theorem join_events_mem (env : SockEnv) (st : WSState)
    (userId sock : String) (payload : JoinPayload) (ids : JoinIds)
    (now : Nat) (e : Event)
    (hv1 : ¬(falsy payload.roomName = true ∨ falsy payload.userName = true ∨
        falsy payload.userRole = true))
    (hv2 : ¬(payload.userRole.getD "" ≠ "product_manager" ∧
        payload.userRole.getD "" ≠ "developer"))
    (he : e ∈ (handleLeaveRoom env st userId ids.leaveMsgId now).2) :
    e ∈ (handleJoinRoom env st userId sock payload ids now).2 := by
  cases hfound : (handleLeaveRoom env st userId ids.leaveMsgId
      now).1.rooms.find? (fun q => q.2.name == payload.roomName.getD "")
      with
  | some p =>
      rw [handleJoinRoom_found env st userId sock payload ids now p
        hv1 hv2 hfound]
      dsimp only
      exact List.mem_append_left _ (List.mem_append_left _
        (List.mem_append_left _ he))
  | none =>
      rw [handleJoinRoom_create env st userId sock payload ids now
        hv1 hv2 hfound]
      dsimp only
      exact List.mem_append_left _ (List.mem_append_left _
        (List.mem_append_left _ he))

/-! Reachability of the scenario fixtures. -/

theorem wSt1_reachable : Reachable wSt1 :=
  Reachable.step wJoinOpA Reachable.init rfl

theorem wSt2_reachable : Reachable wSt2 :=
  Reachable.step wJoinOpB wSt1_reachable
    (show jget wSt1.rooms "r2" = none by decide)

/-! The claims. -/

/-- C1: broadcasting to a room with an excluded sender never delivers to
that sender — the trace is exactly the concatenation, over the members
other than the excluded one, of each member's own delivery attempt, so one
recipient's failure cannot affect another and no error reaches the caller;
every other member with an open socket gets a delivery attempt (a `sent`
event on success, a caught `sendFailed` on failure), and a member whose
socket is not open is skipped silently. -/
theorem c1_broadcast_spec (env : SockEnv) (st : WSState) (roomId : String)
    (msg : OutMsg) (ex : String) (room : Room)
    (h : jget st.rooms roomId = some room) :
    broadcastToRoom env st roomId msg (some ex)
      = room.users.flatMap (fun p =>
          if p.1 = ex then [] else sendToUser env p.2.socket msg)
    ∧ (∀ p ∈ room.users, p.1 ≠ ex → env.readyState p.2.socket = true →
        (if env.sendOk p.2.socket = true then Event.sent p.2.socket msg
         else Event.sendFailed p.2.socket)
          ∈ broadcastToRoom env st roomId msg (some ex))
    ∧ (∀ p ∈ room.users, env.readyState p.2.socket = false →
        sendToUser env p.2.socket msg = []) := by
  have hb := broadcastToRoom_eq env st roomId msg (some ex) room h
  have hfun : (fun p : String × User =>
      if some ex = some p.1 then [] else sendToUser env p.2.socket msg)
      = (fun p : String × User =>
          if p.1 = ex then [] else sendToUser env p.2.socket msg) := by
    funext p
    by_cases he : p.1 = ex
    · rw [if_pos he, if_pos (by rw [he])]
    · rw [if_neg he, if_neg (fun hc => he (by
        injection hc with h2
        exact h2.symm))]
  refine ⟨by rw [hb, hfun], ?_, ?_⟩
  · intro p hp hne hrs
    rw [hb]
    apply List.mem_flatMap.mpr
    refine ⟨p, hp, ?_⟩
    rw [if_neg (fun hc => hne (by
      injection hc with h2
      exact h2.symm))]
    by_cases hok : env.sendOk p.2.socket
    · rw [if_pos hok]
      simp [sendToUser, hrs, hok]
    · rw [if_neg hok]
      simp [sendToUser, hrs, hok]
  · intro p hp hrs
    simp [sendToUser, hrs]

theorem c1_witness :
    jget wSt9.rooms "r9" = some wRoom9
    ∧ (if wEnv.sendOk "s3" = true then
        Event.sent "s3" (OutMsg.error "x")
       else Event.sendFailed "s3")
        ∈ broadcastToRoom wEnv wSt9 "r9" (OutMsg.error "x") (some "u5")
    ∧ sendToUser wEnv "s4" (OutMsg.error "x") = [] := by
  have h := c1_broadcast_spec wEnv wSt9 "r9" (OutMsg.error "x") "u5" wRoom9
    (by decide)
  exact ⟨by decide,
    h.2.1 ("u3", wUserC) (by decide) (by decide) (by decide),
    h.2.2 ("u4", wUserD) (by decide) (by decide)⟩

/-- C2: in every reachable state a room in the directory has a non-empty
membership map — a leave or disconnect that removes the last member deletes
the room within the same operation, so no empty room survives a step. -/
theorem c2_rooms_nonempty (st : WSState) (h : Reachable st) :
    ∀ p ∈ st.rooms, p.2.users ≠ [] :=
  (reach_inv st h).nonEmpty

theorem c2_witness :
    ("r1", wRoom1) ∈ wSt1.rooms ∧ wRoom1.users ≠ [] :=
  ⟨by decide, c2_rooms_nonempty wSt1 wSt1_reachable ("r1", wRoom1)
    (by decide)⟩

/-- C5: a malformed frame, an unrecognized frame type, and a chat message
thrown back by the handler (no user record, or a dangling room) each
produce only a private error reply to the offending session's socket; the
state is unchanged and nothing is broadcast. -/
theorem c5_errors_private (env : SockEnv) (st : WSState)
    (userId sock : String) (ids : JoinIds) (cm : String) (now : Nat) :
    onRawMessage env st userId sock Inbound.malformed ids cm now
      = (st, sendError env sock "消息格式错误")
    ∧ onRawMessage env st userId sock (Inbound.parsed Frame.unknown) ids
        cm now = (st, sendError env sock "未知的消息类型")
    ∧ (∀ payload : ChatPayload, jget st.users userId = none →
        onRawMessage env st userId sock
          (Inbound.parsed (Frame.chat_message payload)) ids cm now
        = (st, sendError env sock "用户未加入任何房间"))
    ∧ (∀ (payload : ChatPayload) (user : User),
        jget st.users userId = some user →
        jget st.rooms user.roomId = none →
        onRawMessage env st userId sock
          (Inbound.parsed (Frame.chat_message payload)) ids cm now
        = (st, sendError env sock "房间不存在"))
    ∧ (∀ s e, e ∈ sendError env sock s →
        e = Event.sent sock (OutMsg.error s) ∨ e = Event.sendFailed sock) := by
  refine ⟨rfl, rfl, ?_, ?_, ?_⟩
  · intro payload hu
    simp only [onRawMessage, handleMessage, handleChatMessage, hu]
  · intro payload user hu hr
    simp only [onRawMessage, handleMessage, handleChatMessage, hu, hr]
  · intro s e he
    by_cases hrs : env.readyState sock
    · by_cases hok : env.sendOk sock
      · simp [sendError, sendToUser, hrs, hok] at he
        exact Or.inl he
      · simp [sendError, sendToUser, hrs, hok] at he
        exact Or.inr he
    · simp [sendError, sendToUser, hrs] at he

theorem c5_witness :
    onRawMessage wEnv initState "u9" "s9" Inbound.malformed wIds "cm" 0
      = (initState, sendError wEnv "s9" "消息格式错误")
    ∧ jget initState.users "u9" = none
    ∧ onRawMessage wEnv initState "u9" "s9"
        (Inbound.parsed (Frame.chat_message (ChatPayload.mk none))) wIds
        "cm" 0
      = (initState, sendError wEnv "s9" "用户未加入任何房间") := by
  have h := c5_errors_private wEnv initState "u9" "s9" wIds "cm" 0
  exact ⟨h.1, rfl, h.2.2.1 (ChatPayload.mk none) rfl⟩

/-- C6: a `join_room` whose payload is missing a field, or whose role is
not one of the two enumerated values, only sends a private error reply to
the requesting session and leaves the whole state (in particular any
existing membership) unchanged. -/
theorem c6_join_validation (env : SockEnv) (st : WSState)
    (userId sock : String) (payload : JoinPayload) (ids : JoinIds)
    (now : Nat) :
    (falsy payload.roomName = true ∨ falsy payload.userName = true ∨
        falsy payload.userRole = true →
      handleJoinRoom env st userId sock payload ids now
        = (st, sendError env sock "缺少必要参数: roomName, userName, userRole"))
    ∧ (falsy payload.roomName = false → falsy payload.userName = false →
        falsy payload.userRole = false →
        payload.userRole.getD "" ≠ "product_manager" →
        payload.userRole.getD "" ≠ "developer" →
        handleJoinRoom env st userId sock payload ids now
          = (st, sendError env sock "无效的用户角色")) := by
  constructor
  · intro h
    simp only [handleJoinRoom, if_pos h]
  · intro h1 h2 h3 h4 h5
    have hv1 : ¬(falsy payload.roomName = true ∨
        falsy payload.userName = true ∨ falsy payload.userRole = true) := by
      simp [h1, h2, h3]
    simp only [handleJoinRoom, if_neg hv1, if_pos (And.intro h4 h5)]

theorem c6_witness :
    falsy (JoinPayload.mk (some "alpha") none (some "developer")).userName
      = true
    ∧ handleJoinRoom wEnv wSt1 "u2" "s2"
        (JoinPayload.mk (some "alpha") none (some "developer")) wIds2 9
      = (wSt1,
         sendError wEnv "s2" "缺少必要参数: roomName, userName, userRole") :=
  ⟨rfl,
   (c6_join_validation wEnv wSt1 "u2" "s2"
      (JoinPayload.mk (some "alpha") none (some "developer")) wIds2 9).1
     (Or.inr (Or.inl rfl))⟩

/-- C7: in every reachable state two rooms with the same name are the same
directory entry, so lookup by name finds at most one live room. -/
theorem c7_room_names_unique (st : WSState) (h : Reachable st) :
    ∀ p ∈ st.rooms, ∀ q ∈ st.rooms, p.2.name = q.2.name → p = q := by
  intro p hp q hq hname
  have hInv := reach_inv st h
  have hk := hInv.namesUniq p hp q hq hname
  have h1 : jget st.rooms p.1 = some p.2 :=
    jget_of_mem_nodup hInv.roomsNodup hp
  have h2 : jget st.rooms q.1 = some q.2 :=
    jget_of_mem_nodup hInv.roomsNodup hq
  rw [← hk, h1] at h2
  injection h2 with h3
  exact Prod.ext hk h3

theorem c7_witness :
    ("r1", wRoom2) ∈ wSt2.rooms ∧
    (("r1", wRoom2) : String × Room) = ("r1", wRoom2) :=
  ⟨by decide,
   c7_room_names_unique wSt2 wSt2_reachable ("r1", wRoom2) (by decide)
     ("r1", wRoom2) (by decide) rfl⟩

/-- C8 counterexample: the connection handler sends
`connection_established` with the fresh id but stores no session record —
the user map still has no entry for the new id afterwards, contradicting
the claim that a session record is stored in the map on connect. -/
theorem c8_counterexample :
    (handleConnect wEnv initState "u1" "s1").2
      = [Event.sent "s1" (OutMsg.connection_established "u1")]
    ∧ jget (handleConnect wEnv initState "u1" "s1").1.users "u1"
        = none := by
  exact ⟨by decide, rfl⟩

/-- C8 amended: on connect a fresh identifier is sent back in a
`connection_established` notification and no map is touched (a session
record exists only once the session joins a room); on disconnect the
handler just triggers the leave-room operation — a no-op for a session
with no record — after which the session has no record in the user map. -/
theorem c8_amended_registry (env : SockEnv) (st : WSState)
    (userId sock m : String) (now : Nat) (hInv : Inv st) :
    handleConnect env st userId sock
      = (st, sendToUser env sock (OutMsg.connection_established userId))
    ∧ handleDisconnect env st userId m now
        = handleLeaveRoom env st userId m now
    ∧ jget (handleDisconnect env st userId m now).1.users userId
        = none :=
  ⟨rfl, rfl, leave_users_self env st userId m now hInv⟩

theorem c8_witness :
    handleConnect wEnv initState "u1" "s1"
      = (initState,
         sendToUser wEnv "s1" (OutMsg.connection_established "u1"))
    ∧ jget (handleDisconnect wEnv initState "u1" "m" 0).1.users "u1"
        = none :=
  ⟨(c8_amended_registry wEnv initState "u1" "s1" "m" 0 inv_initState).1,
   (c8_amended_registry wEnv initState "u1" "s1" "m" 0 inv_initState).2.2⟩

/-- C9: `handleLeaveRoom` on a session with no user record returns the
state unchanged with no events; and whatever the first call did, an
immediately repeated call is a no-op (assuming the user map has no
duplicate keys, as every reachable state does). -/
theorem c9_leave_idempotent (env env2 : SockEnv) (st : WSState)
    (userId m m2 : String) (now now2 : Nat)
    (hnd : (keys st.users).Nodup) :
    (jget st.users userId = none →
      handleLeaveRoom env st userId m now = (st, []))
    ∧ handleLeaveRoom env2 (handleLeaveRoom env st userId m now).1 userId
        m2 now2 = ((handleLeaveRoom env st userId m now).1, []) := by
  constructor
  · intro h
    exact handleLeaveRoom_of_no_user env st userId m now h
  · cases hget : jget st.users userId with
    | none =>
        rw [handleLeaveRoom_of_no_user env st userId m now hget]
        exact handleLeaveRoom_of_no_user env2 st userId m2 now2 hget
    | some user =>
        cases hr : jget st.rooms user.roomId with
        | none =>
            rw [handleLeaveRoom_of_no_room env st userId m now user
              hget hr]
            exact handleLeaveRoom_of_no_room env2 st userId m2 now2 user
              hget hr
        | some room =>
            rw [handleLeaveRoom_of_some env st userId m now user room
              hget hr]
            dsimp only
            have hnone : jget (jerase st.users userId) userId = none :=
              jget_jerase_self hnd
            by_cases hc : (jerase room.users userId).length = 0
            · rw [if_pos hc]
              exact handleLeaveRoom_of_no_user env2 _ userId m2 now2 hnone
            · rw [if_neg hc]
              exact handleLeaveRoom_of_no_user env2 _ userId m2 now2 hnone

theorem c9_witness :
    (keys wSt1.users).Nodup
    ∧ handleLeaveRoom wEnv (handleLeaveRoom wEnv wSt1 "u1" "m" 8).1 "u1"
        "m" 9 = ((handleLeaveRoom wEnv wSt1 "u1" "m" 8).1, []) :=
  ⟨by decide,
   (c9_leave_idempotent wEnv wEnv wSt1 "u1" "m" "m" 8 9 (by decide)).2⟩

/-- C10: in every reachable state the user map and the room directory are
mutually consistent — a user-map entry lies in exactly the room named by
its `roomId` (every other room lacks it), every room member has a matching
user-map entry, and `getStats` reports `totalUsers` equal to the sum of
the per-room `userCount`s, so connected sessions that never joined are not
counted. -/
theorem c10_registry_consistency (st : WSState) (h : Reachable st) :
    (∀ k u, jget st.users k = some u →
      ∃ room, jget st.rooms u.roomId = some room ∧
        jget room.users k = some u ∧
        ∀ p ∈ st.rooms, p.1 ≠ u.roomId → jget p.2.users k = none)
    ∧ (∀ rid room q, jget st.rooms rid = some room → q ∈ room.users →
        jget st.users q.1 = some q.2 ∧ q.2.roomId = rid)
    ∧ (getStats st).totalUsers
        = ((getStats st).rooms.map (fun r => r.userCount)).sum := by
  have hInv := reach_inv st h
  refine ⟨?_, ?_, ?_⟩
  · intro k u hu
    obtain ⟨room, hr, hm⟩ := hInv.userMem (k, u) (jget_mem hu)
    exact ⟨room, hr, hm, inv_unique_room st hInv k u hu⟩
  · intro rid room q hr hq
    exact hInv.memUser (rid, room) (jget_mem hr) q hq
  · show st.users.length
      = ((st.rooms.map (fun p =>
          RoomInfo.mk p.2.id p.2.name p.2.users.length p.2.createdAt)).map
          (fun r => r.userCount)).sum
    rw [List.map_map]
    exact hInv.count.symm

theorem flatMap_drop_if (uid : String) (f : String × User → List Event)
    (l : List (String × User)) (h : ∀ q ∈ l, q.1 ≠ uid) :
    l.flatMap (fun q => if some uid = some q.1 then [] else f q)
      = l.flatMap f := by
  induction l with
  | nil => rfl
  | cons a rest ih =>
      rw [List.flatMap_cons, List.flatMap_cons]
      rw [if_neg (fun hc => (h a (List.mem_cons_self a rest)) (by
        injection hc with h2
        exact h2.symm))]
      rw [ih (fun q hq => h q (List.mem_cons_of_mem a hq))]

theorem sendUserList_eq (env : SockEnv) (st : WSState) (userId : String)
    (user : User) (room : Room)
    (hu : jget st.users userId = some user)
    (hr : jget st.rooms user.roomId = some room) :
    sendUserList env st userId
      = sendToUser env user.socket
          (OutMsg.user_list (getRoomUsers st room.id)) := by
  simp only [sendUserList, hu, hr]

/-- C3: a successful `join_room` first leaves the current room, so the
session ends with exactly one membership — the new room, carrying the
requested name, contains it and every other room lacks it; each remaining
open member of the old room gets the `user_left` broadcast, and if the
session was the old room's last member, the old room is gone from the
directory afterwards. -/
theorem c3_single_membership (env : SockEnv) (st : WSState)
    (userId sock : String) (payload : JoinPayload) (ids : JoinIds)
    (now : Nat) (hre : Reachable st)
    (hfresh : jget st.rooms ids.newRoomId = none)
    (hv1 : ¬(falsy payload.roomName = true ∨ falsy payload.userName = true ∨
        falsy payload.userRole = true))
    (hv2 : ¬(payload.userRole.getD "" ≠ "product_manager" ∧
        payload.userRole.getD "" ≠ "developer")) :
    (∃ u room,
      jget (handleJoinRoom env st userId sock payload ids now).1.users
        userId = some u ∧
      jget (handleJoinRoom env st userId sock payload ids now).1.rooms
        u.roomId = some room ∧
      jget room.users userId = some u ∧
      room.name = payload.roomName.getD "" ∧
      (∀ p ∈ (handleJoinRoom env st userId sock payload ids now).1.rooms,
        p.1 ≠ u.roomId → jget p.2.users userId = none))
    ∧ (∀ oldU oldRoom, jget st.users userId = some oldU →
        jget st.rooms oldU.roomId = some oldRoom →
        (∀ q ∈ oldRoom.users, q.1 ≠ userId →
          env.readyState q.2.socket = true → env.sendOk q.2.socket = true →
          ∃ infos, Event.sent q.2.socket
            (OutMsg.user_left oldU.toInfo infos ids.leaveMsgId
              (oldU.name ++ " 离开了房间") now)
            ∈ (handleJoinRoom env st userId sock payload ids now).2)
        ∧ (keys oldRoom.users = [userId] →
            jget (handleJoinRoom env st userId sock payload ids
              now).1.rooms oldU.roomId = none)) := by
  have hInv := reach_inv st hre
  have hInv2 : Inv (handleJoinRoom env st userId sock payload ids now).1 :=
    join_inv env st userId sock payload ids now hInv hfresh
  constructor
  · obtain ⟨u, room, h1, h2, h3, h4, _⟩ :=
      join_valid_result env st userId sock payload ids now hInv hv1 hv2
    exact ⟨u, room, h1, h2, h3, h4, inv_unique_room _ hInv2 userId u h1⟩
  · intro oldU oldRoom hu hr
    constructor
    · intro q hq hne hrs hok
      obtain ⟨infos, hmem⟩ := leave_events_mem env st userId
        ids.leaveMsgId now oldU oldRoom hInv hu hr q hq hne hrs hok
      exact ⟨infos, join_events_mem env st userId sock payload ids now _
        hv1 hv2 hmem⟩
    · intro honly
      have hdel : jget (handleLeaveRoom env st userId ids.leaveMsgId
          now).1.rooms oldU.roomId = none :=
        leave_room_deleted env st userId ids.leaveMsgId now oldU oldRoom
          hInv hu hr honly
      have hne2 : oldU.roomId ≠ ids.newRoomId := by
        intro he
        rw [he, hfresh] at hr
        exact absurd hr (by simp)
      exact join_rooms_none env st userId sock payload ids now oldU.roomId
        hv1 hv2 hdel hne2

theorem c3_witness :
    jget wSt1.users "u1" = some wUserA
    ∧ keys wRoom1.users = ["u1"]
    ∧ jget (handleJoinRoom wEnv wSt1 "u1" "s1" wPayBeta wIds2 9).1.rooms
        "r1" = none := by
  have h := c3_single_membership wEnv wSt1 "u1" "s1" wPayBeta wIds2 9
    wSt1_reachable (by decide) (by decide) (by decide)
  exact ⟨by decide, by decide,
    (h.2 wUserA wRoom1 (by decide) (by decide)).2 (by decide)⟩

/-- C4: a join by a session with no current room produces exactly, in
order: a private `room_joined` reply to the joiner with the room id, the
room name and the post-insertion member count (previous members plus one);
the `user_joined` broadcast to exactly the previous members — excluding
the joiner — whose `users` list is the post-insertion membership including
the joiner; and finally a private `user_list` push to the joiner with all
current members. -/
theorem c4_join_notifications (env : SockEnv) (st : WSState)
    (userId sock : String) (payload : JoinPayload) (ids : JoinIds)
    (now : Nat) (hre : Reachable st)
    (hu : jget st.users userId = none)
    (hv1 : ¬(falsy payload.roomName = true ∨ falsy payload.userName = true ∨
        falsy payload.userRole = true))
    (hv2 : ¬(payload.userRole.getD "" ≠ "product_manager" ∧
        payload.userRole.getD "" ≠ "developer"))
    (hrs : env.readyState sock = true) (hok : env.sendOk sock = true) :
    ∃ rid prev,
      ((∃ p, st.rooms.find?
          (fun q => q.2.name == payload.roomName.getD "") = some p ∧
          prev = p.2.users ∧ rid = p.1)
        ∨ (st.rooms.find?
            (fun q => q.2.name == payload.roomName.getD "") = none ∧
          prev = [] ∧ rid = ids.newRoomId))
      ∧ (∀ q ∈ prev, q.1 ≠ userId)
      ∧ (handleJoinRoom env st userId sock payload ids now).2
        = Event.sent sock (OutMsg.room_joined rid (payload.roomName.getD "")
            (prev.length + 1))
          :: (prev.flatMap (fun q => sendToUser env q.2.socket
                (OutMsg.user_joined
                  (UserInfo.mk userId (payload.userName.getD "")
                    (toRole (payload.userRole.getD "")))
                  (prev.map (fun q2 => q2.2.toInfo)
                    ++ [UserInfo.mk userId (payload.userName.getD "")
                        (toRole (payload.userRole.getD ""))])
                  ids.joinMsgId
                  (payload.userName.getD "" ++ " 加入了房间") now))
              ++ [Event.sent sock (OutMsg.user_list
                  (prev.map (fun q2 => q2.2.toInfo)
                    ++ [UserInfo.mk userId (payload.userName.getD "")
                        (toRole (payload.userRole.getD ""))]))]) := by
  have hInv := reach_inv st hre
  have hleave : handleLeaveRoom env st userId ids.leaveMsgId now
      = (st, []) := handleLeaveRoom_of_no_user env st userId
        ids.leaveMsgId now hu
  have hsend : ∀ msg : OutMsg,
      sendToUser env sock msg = [Event.sent sock msg] := by
    intro msg
    simp [sendToUser, hrs, hok]
  cases hfound : st.rooms.find?
      (fun q => q.2.name == payload.roomName.getD "") with
  | some p =>
      have hfound' : (handleLeaveRoom env st userId ids.leaveMsgId
          now).1.rooms.find?
          (fun q => q.2.name == payload.roomName.getD "") = some p := by
        rw [hleave]
        exact hfound
      have hp_mem : p ∈ st.rooms := List.mem_of_find?_eq_some hfound
      have hb := List.find?_some hfound
      have hp_name : p.2.name = payload.roomName.getD "" := beq_iff_eq.mp hb
      have h7 : p.2.id = p.1 := hInv.roomKey p hp_mem
      have hq_ne : ∀ q ∈ p.2.users, q.1 ≠ userId := by
        intro q hq he
        have hj : jget st.users q.1 = some q.2 :=
          (hInv.memUser p hp_mem q hq).1
        rw [he, hu] at hj
        exact absurd hj (by simp)
      have h9 : userId ∉ keys p.2.users := by
        intro hk
        obtain ⟨w, hw⟩ := mem_keys_iff.mp hk
        exact hq_ne (userId, w) hw rfl
      refine ⟨p.1, p.2.users, Or.inl ⟨p, rfl, rfl, rfl⟩, hq_ne, ?_⟩
      rw [handleJoinRoom_found env st userId sock payload ids now p
        hv1 hv2 hfound']
      dsimp only
      rw [hleave]
      dsimp only
      set U : User :=
        { id := userId, socket := sock
          role := toRole (payload.userRole.getD "")
          name := payload.userName.getD "", roomId := p.2.id
          joinedAt := now } with hUdef
      set room1 : Room :=
        { id := p.2.id, name := p.2.name
          users := jset p.2.users userId U, createdAt := p.2.createdAt }
        with hroom1def
      set st2 : WSState :=
        { rooms := jset st.rooms p.1 room1
          users := jset st.users userId U } with hst2def
      have hjset : jset p.2.users userId U = p.2.users ++ [(userId, U)] :=
        jset_of_not_mem U h9
      have hr1 : jget st2.rooms room1.id = some room1 := by
        show jget (jset st.rooms p.1 room1) p.2.id = some room1
        rw [h7]
        exact jget_jset_self st.rooms p.1 room1
      have hgru : getRoomUsers st2 room1.id
          = p.2.users.map (fun q2 => q2.2.toInfo)
            ++ [UserInfo.mk userId (payload.userName.getD "")
                (toRole (payload.userRole.getD ""))] := by
        simp only [getRoomUsers, hr1]
        show (jset p.2.users userId U).map (fun q2 => q2.2.toInfo) = _
        rw [hjset, List.map_append]
        rfl
      have hu2 : jget st2.users userId = some U :=
        jget_jset_self st.users userId U
      have hulist : sendUserList env st2 userId
          = [Event.sent sock (OutMsg.user_list (getRoomUsers st2
              room1.id))] := by
        rw [sendUserList_eq env st2 userId U room1 hu2 hr1]
        exact hsend _
      have hbc : ∀ msg : OutMsg,
          broadcastToRoom env st2 room1.id msg (some userId)
          = p.2.users.flatMap (fun q => sendToUser env q.2.socket msg) := by
        intro msg
        rw [broadcastToRoom_eq env st2 room1.id msg (some userId) room1 hr1]
        show (jset p.2.users userId U).flatMap _ = _
        rw [hjset, List.flatMap_append, flatMap_drop_if userId _ _ hq_ne]
        simp
      have hlen : room1.users.length = p.2.users.length + 1 := by
        show (jset p.2.users userId U).length = _
        rw [hjset, List.length_append]
        rfl
      have hid : room1.id = p.1 := h7
      have hname : room1.name = payload.roomName.getD "" := hp_name
      rw [hsend, hulist, hbc, hgru, hlen, hid, hname]
      simp only [User.toInfo, List.nil_append, List.singleton_append,
        List.cons_append, List.append_assoc]
  | none =>
      have hfound' : (handleLeaveRoom env st userId ids.leaveMsgId
          now).1.rooms.find?
          (fun q => q.2.name == payload.roomName.getD "") = none := by
        rw [hleave]
        exact hfound
      refine ⟨ids.newRoomId, [], Or.inr ⟨rfl, rfl, rfl⟩, by simp, ?_⟩
      rw [handleJoinRoom_create env st userId sock payload ids now
        hv1 hv2 hfound']
      dsimp only
      rw [hleave]
      dsimp only
      set U : User :=
        { id := userId, socket := sock
          role := toRole (payload.userRole.getD "")
          name := payload.userName.getD "", roomId := ids.newRoomId
          joinedAt := now } with hUdef
      set room1 : Room :=
        { id := ids.newRoomId, name := payload.roomName.getD ""
          users := jset [] userId U, createdAt := now } with hroom1def
      set st2 : WSState :=
        { rooms := jset (jset st.rooms ids.newRoomId
            { id := ids.newRoomId, name := payload.roomName.getD ""
              users := [], createdAt := now }) ids.newRoomId room1
          users := jset st.users userId U } with hst2def
      have hr1 : jget st2.rooms room1.id = some room1 :=
        jget_jset_self _ ids.newRoomId room1
      have hgru : getRoomUsers st2 room1.id
          = [UserInfo.mk userId (payload.userName.getD "")
              (toRole (payload.userRole.getD ""))] := by
        simp only [getRoomUsers, hr1]
        rfl
      have hu2 : jget st2.users userId = some U :=
        jget_jset_self st.users userId U
      have hulist : sendUserList env st2 userId
          = [Event.sent sock (OutMsg.user_list (getRoomUsers st2
              room1.id))] := by
        rw [sendUserList_eq env st2 userId U room1 hu2 hr1]
        exact hsend _
      have hbc : ∀ msg : OutMsg,
          broadcastToRoom env st2 room1.id msg (some userId) = [] := by
        intro msg
        rw [broadcastToRoom_eq env st2 room1.id msg (some userId) room1 hr1]
        show (jset ([] : List (String × User)) userId U).flatMap _ = []
        simp [jset]
      rw [hsend, hulist, hbc, hgru]
      simp [jset]

theorem c4_witness :
    jget wSt1.users "u2" = none
    ∧ (handleJoinRoom wEnv wSt1 "u2" "s2" wPayB wIds2 7).2
      = [Event.sent "s2" (OutMsg.room_joined "r1" "alpha" 2),
         Event.sent "s1" (OutMsg.user_joined
           (UserInfo.mk "u2" "Bob" UserRole.developer)
           [UserInfo.mk "u1" "Alice" UserRole.product_manager,
            UserInfo.mk "u2" "Bob" UserRole.developer]
           "m4" "Bob 加入了房间" 7),
         Event.sent "s2" (OutMsg.user_list
           [UserInfo.mk "u1" "Alice" UserRole.product_manager,
            UserInfo.mk "u2" "Bob" UserRole.developer])] := by
  obtain ⟨rid, prev, hcase, hmem, heq⟩ := c4_join_notifications wEnv wSt1
    "u2" "s2" wPayB wIds2 7 wSt1_reachable (by decide) (by decide)
    (by decide) (by decide) (by decide)
  refine ⟨by decide, ?_⟩
  rcases hcase with ⟨p, hp, hprev, hrid⟩ | ⟨hp, hprev, hrid⟩
  · have hp2 : p = ("r1", wRoom1) := by
      have hfind : wSt1.rooms.find?
          (fun q => q.2.name == (wPayB.roomName.getD "")) =
          some ("r1", wRoom1) := by decide
      rw [hfind] at hp
      injection hp with h2
      exact h2.symm
    subst hp2
    subst hprev
    subst hrid
    rw [heq]
    decide
  · exact absurd hp (by decide)

theorem c10_witness :
    jget wSt2.users "u2" = some wUserB
    ∧ (getStats wSt2).totalUsers
        = ((getStats wSt2).rooms.map (fun r => r.userCount)).sum :=
  ⟨by decide, (c10_registry_consistency wSt2 wSt2_reachable).2.2⟩

end Microphone
